import Mathlib

/-!
Shallow embedding of the alert lifecycle engine of the `miou` bot
(`src/alerts/alert.rs`, `src/alerts/alert_controller.rs`,
`src/alerts/alert_loader.rs`).

Rust collections are embedded as association lists / lists:
* `HashSet<Alert>` becomes `List Alert` whose elements are pairwise
  distinct by alert identity (`IdNodup`); `HashSet::insert` keeps the
  existing element on an identity collision, `HashSet::remove` /
  `retain` filter.
* `HashMap<String, HashSet<Alert>>` (the registry) and
  `HashMap<Alert, JoinHandle<()>>` (the task table) become association
  lists with the usual HashMap semantics: lookup finds the entry,
  `insert` replaces the value but keeps the stored key.
* Spawned tokio tasks are given consecutive `Nat` ids; `abort` records
  the id in an `aborted` list, and the expiry of a task's sleep is an
  explicit `taskExpire` step that replays the body of the closure
  spawned in `fire_alert` (invoke the callback; the closure has no
  access to the task table).
-/

namespace Miou

/-- The `Alert` struct of `src/alerts/alert.rs`. -/
structure Alert where
  room_id : String
  player_id : String
  user_id : String
  notified : Bool
  delay : Nat
  player_url : String
deriving Repr, DecidableEq

/-- The `impl PartialEq for Alert`: equality compares only `room_id`,
`user_id` and `player_id`, in that order. -/
def alertEq (a b : Alert) : Bool :=
  a.room_id == b.room_id && a.user_id == b.user_id && a.player_id == b.player_id

/-- The `impl Hash for Alert`: the hasher state is fed `room_id`, then
`player_id`, then `user_id`; `notified`, `delay` and `player_url` are
not hashed.  The streaming hasher is abstracted as any function
`hashStr : Nat → String → Nat` updating a `Nat` state. -/
def alertHash (hashStr : Nat → String → Nat) (state : Nat) (a : Alert) : Nat :=
  hashStr (hashStr (hashStr state a.room_id) a.player_id) a.user_id

/-- The identity triple `(room_id, player_id, user_id)` of an alert. -/
def identity (a : Alert) : String × String × String :=
  (a.room_id, a.player_id, a.user_id)

/-! ### `HashSet<Alert>` -/

/-- A `HashSet<Alert>` as a list of alerts; the set invariant is
`IdNodup`. -/
abbrev AlertSet := List Alert

/-- Embeds `HashSet::contains` / the membership probe of `insert`, by alert
identity. -/
def memAlert (s : AlertSet) (a : Alert) : Bool :=
  s.any (fun x => alertEq x a)

/-- Embeds `HashSet::insert`: on an identity collision the set is unchanged
(the existing element, with its `notified`/`delay`, survives and the
argument is dropped). -/
def insertAlert (s : AlertSet) (a : Alert) : AlertSet :=
  if memAlert s a then s else s ++ [a]

/-- Embeds `HashSet::remove`: drops the element with the argument's identity. -/
def removeAlert (s : AlertSet) (a : Alert) : AlertSet :=
  s.filter (fun x => !alertEq x a)

/-- The `HashSet` invariant: elements are pairwise distinct by
identity. -/
abbrev IdNodup (s : AlertSet) : Prop :=
  s.Pairwise (fun x y => alertEq x y = false)

/-! ### The registry `HashMap<String, HashSet<Alert>>` -/

/-- The alerts map of the controller. -/
abbrev Registry := List (String × AlertSet)

/-- Embeds `HashMap::get` on the registry. -/
def regLookup (r : Registry) (g : String) : Option AlertSet :=
  match r with
  | [] => none
  | (k, s) :: t => if k = g then some s else regLookup t g

/-- In-place update of the entry for key `g` (Rust mutates through
`get_mut`/`entry`). -/
def regUpdate (r : Registry) (g : String) (f : AlertSet → AlertSet) : Registry :=
  match r with
  | [] => []
  | (k, s) :: t => if k = g then (k, f s) :: t else (k, s) :: regUpdate t g f

/-! ### The task table `HashMap<Alert, JoinHandle<()>>` -/

/-- The task table, keyed by alert (hence by alert identity), valued by
spawned-task id. -/
abbrev Handles := List (Alert × Nat)

/-- Embeds `HashMap::get` on the task table. -/
def hLookup (hs : Handles) (a : Alert) : Option Nat :=
  match hs with
  | [] => none
  | (k, v) :: t => if alertEq k a then some v else hLookup t a

/-- Embeds `HashMap::remove_entry` on the task table (dropping the entry). -/
def hRemove (hs : Handles) (a : Alert) : Handles :=
  hs.filter (fun kv => !alertEq kv.1 a)

/-- Embeds `HashMap::insert` on the task table: replaces the value of an
existing entry (keeping the stored key), otherwise appends. -/
def hInsert (hs : Handles) (a : Alert) (v : Nat) : Handles :=
  match hs with
  | [] => [(a, v)]
  | (k, w) :: t => if alertEq k a then (k, v) :: t else (k, w) :: hInsert t a v

/-! ### Observed games -/

/-- The `Game` struct of `src/tmars/structs.rs`, restricted to the one
field the alert engine ever reads: `waited_players` (a
`HashSet<String>`).  `id`, `phase`, `spectator_id` and `players` are
never consulted by the alert code. -/
structure Game where
  waited_players : List String
deriving Repr, DecidableEq

/-- The `GamesMap = HashMap<String, Game>` alias. -/
abbrev GamesMap := List (String × Game)

/-- Embeds `HashMap::get` on the games map. -/
def gmLookup (gm : GamesMap) (g : String) : Option Game :=
  match gm with
  | [] => none
  | (k, v) :: t => if k = g then some v else gmLookup t g

/-! ### The controller state -/

/-- The mutable state of `AlertController`, together with the
bookkeeping needed to observe spawned tasks: `tasks` records every task
ever spawned by `fire_alert` (id and the captured `alert_clone`),
`next_id` is the next fresh task id, `aborted` the ids on which
`JoinHandle::abort` was called, `expired` the ids whose sleep has
elapsed and whose body ran, and `fired` the log of
`on_alert_to_fire` invocations (in order). -/
structure Controller where
  alerts_map : Registry
  handles : Handles
  tasks : List (Nat × Alert)
  next_id : Nat
  aborted : List Nat
  expired : List Nat
  fired : List Alert
deriving Repr, DecidableEq

/-- Lookup of a spawned task's captured alert by id. -/
def tLookup (ts : List (Nat × Alert)) (id : Nat) : Option Alert :=
  match ts with
  | [] => none
  | (k, v) :: t => if k = id then some v else tLookup t id

/-- Embeds `AlertController::add_alert`:
`alerts_map.entry(game_id).or_insert_with(HashSet::new)` followed by
`alerts.insert(alert)`. -/
def add_alert (r : Registry) (game_id : String) (alert : Alert) : Registry :=
  match regLookup r game_id with
  | some _ => regUpdate r game_id (fun s => insertAlert s alert)
  | none => r ++ [(game_id, insertAlert [] alert)]

/-- Embeds `AlertController::remove_alerts`: if the game is absent, return;
otherwise `alerts.retain(|a| a.room_id != room_id || a.user_id != user_id)`. -/
def remove_alerts (r : Registry) (game_id room_id user_id : String) : Registry :=
  match regLookup r game_id with
  | none => r
  | some _ =>
      regUpdate r game_id
        (fun s => s.filter (fun a => a.room_id != room_id || a.user_id != user_id))

/-- Embeds `AlertController::get_alerts_map`: clone of the current registry. -/
def get_alerts_map (c : Controller) : Registry :=
  c.alerts_map

/-- The per-alert body of the `retain` closure in
`AlertController::clean_alerts`: for every alert of a removed game,
`thread_handles_map.remove_entry(alert)` and `handle.abort()`. -/
def abortAlerts (hs : Handles) (ab : List Nat) (alerts : AlertSet) :
    Handles × List Nat :=
  match alerts with
  | [] => (hs, ab)
  | a :: t =>
      match hLookup hs a with
      | some id => abortAlerts (hRemove hs a) (id :: ab) t
      | none => abortAlerts hs ab t

/-- The `retain` pass of `AlertController::clean_alerts` over the
registry entries: keep entries whose game id is in `games_map`,
otherwise abort and drop every task handle of the entry's alerts and
drop the entry. -/
def cleanGo (gm : GamesMap) (r : Registry) (hs : Handles) (ab : List Nat) :
    Registry × Handles × List Nat :=
  match r with
  | [] => ([], hs, ab)
  | (g, s) :: t =>
      if (gmLookup gm g).isSome then
        let o := cleanGo gm t hs ab
        ((g, s) :: o.1, o.2.1, o.2.2)
      else
        let o := abortAlerts hs ab s
        cleanGo gm t o.1 o.2

/-- Embeds `AlertController::clean_alerts`. -/
def clean_alerts (c : Controller) (gm : GamesMap) : Controller :=
  let o := cleanGo gm c.alerts_map c.handles c.aborted
  { c with alerts_map := o.1, handles := o.2.1, aborted := o.2.2 }

/-- The result of the first pass of `get_alerts_to_fire` over one
game's alerts: the alerts pushed to `alerts_to_fire` (without the game
id), the `alerts_to_update` list, and the task table and abort log
after the branch-2 `remove_entry`/`abort` calls. -/
structure EvalOut where
  fires : List Alert
  updates : List (Alert × Bool)
  handles : Handles
  aborted : List Nat
deriving Repr, DecidableEq

/-- The `for alert in alerts.iter()` loop of
`AlertController::get_alerts_to_fire`: an alert of a waited player that
is not yet notified is pushed to the fire list and marked
`(alert, true)`; a notified alert of a player no longer waited is
marked `(alert, false)` and its pending task, if any, is removed from
the table and aborted; any other alert is untouched. -/
def evalAlerts (waited : List String) (alerts : AlertSet)
    (hs : Handles) (ab : List Nat) : EvalOut :=
  match alerts with
  | [] => ⟨[], [], hs, ab⟩
  | a :: t =>
      if a.player_id ∈ waited ∧ a.notified = false then
        let o := evalAlerts waited t hs ab
        ⟨a :: o.fires, (a, true) :: o.updates, o.handles, o.aborted⟩
      else if a.player_id ∉ waited ∧ a.notified = true then
        match hLookup hs a with
        | some id =>
            let o := evalAlerts waited t (hRemove hs a) (id :: ab)
            ⟨o.fires, (a, false) :: o.updates, o.handles, o.aborted⟩
        | none =>
            let o := evalAlerts waited t hs ab
            ⟨o.fires, (a, false) :: o.updates, o.handles, o.aborted⟩
      else
        evalAlerts waited t hs ab

/-- The second pass of `get_alerts_to_fire` over one game: for each
marked `(alert, notified)`, `alerts.remove(&alert)` then re-insert the
alert with the new `notified` value. -/
def applyUpdates (alerts : AlertSet) (ups : List (Alert × Bool)) : AlertSet :=
  match ups with
  | [] => alerts
  | (a, n) :: t =>
      applyUpdates (insertAlert (removeAlert alerts a) { a with notified := n }) t

/-- The `for (game_id, game) in games_map` loop of
`AlertController::get_alerts_to_fire`, threading the controller state
and accumulating the `(game_id, alert)` fire list in order. -/
def gatfGo (c : Controller) (gm : GamesMap) :
    Controller × List (String × Alert) :=
  match gm with
  | [] => (c, [])
  | (game_id, game) :: rest =>
      match regLookup c.alerts_map game_id with
      | none => gatfGo c rest
      | some alerts =>
          let o := evalAlerts game.waited_players alerts c.handles c.aborted
          let c' := { c with
            alerts_map := regUpdate c.alerts_map game_id (fun _ => applyUpdates alerts o.updates),
            handles := o.handles,
            aborted := o.aborted }
          let rec_out := gatfGo c' rest
          (rec_out.1, o.fires.map (fun a => (game_id, a)) ++ rec_out.2)

/-- Embeds `AlertController::get_alerts_to_fire`. -/
def get_alerts_to_fire (c : Controller) (gm : GamesMap) :
    Controller × List (String × Alert) :=
  gatfGo c gm

/-- The controller state after one game's iteration of the
`get_alerts_to_fire` loop (the `c'` of `gatfGo`), named for use in
proofs. -/
def stepGame (c : Controller) (k : String) (gk : Game) (alerts : AlertSet) :
    Controller :=
  let o := evalAlerts gk.waited_players alerts c.handles c.aborted
  { c with
    alerts_map := regUpdate c.alerts_map k (fun _ => applyUpdates alerts o.updates),
    handles := o.handles,
    aborted := o.aborted }

/-- Embeds `AlertController::fire_alert`: for each `(game_id, alert)` to fire,
abort the existing task found by `thread_handles_map.get(&alert)` (the
entry is not removed), spawn a new delayed task capturing a clone of
the alert, and `insert` its handle into the table. -/
def fire_alert (c : Controller) (alerts_to_fire : List (String × Alert)) : Controller :=
  match alerts_to_fire with
  | [] => c
  | (_, alert) :: t =>
      let ab :=
        match hLookup c.handles alert with
        | some id => id :: c.aborted
        | none => c.aborted
      let id := c.next_id
      let c' := { c with
        handles := hInsert c.handles alert id,
        tasks := c.tasks ++ [(id, alert)],
        next_id := id + 1,
        aborted := ab }
      fire_alert c' t

/-- Embeds `AlertController::update_alerts`: `clean_alerts`, then
`get_alerts_to_fire`, then `fire_alert` on the resulting list. -/
def update_alerts (c : Controller) (gm : GamesMap) : Controller :=
  let c1 := clean_alerts c gm
  let o := get_alerts_to_fire c1 gm
  fire_alert o.1 o.2

/-- Expiry of spawned task `id` (the body of the closure in
`fire_alert` after its sleep): if the task was aborted before the sleep
elapsed, or already ran, nothing happens; otherwise the body runs once
and invokes `on_alert_to_fire` with the captured alert clone.  The
closure has no access to `thread_handles_map`, so the task table is
untouched. -/
def taskExpire (c : Controller) (id : Nat) : Controller :=
  match tLookup c.tasks id with
  | none => c
  | some a =>
      if id ∈ c.aborted ∨ id ∈ c.expired then c
      else { c with fired := c.fired ++ [a], expired := c.expired ++ [id] }

/-! ### Persistence (`src/alerts/alert_loader.rs`)

`serde_json::to_string` and `serde_json::from_str` factor through the
JSON document; the embedding works at the level of that document
(`Json` below).  A file whose text fails JSON parsing is the
`FileContent.malformed` case. -/

/-- A JSON document, as produced and consumed by `serde_json` for the
alerts map (only the forms the alerts map uses). -/
inductive Json where
  | bool (b : Bool)
  | num (n : Nat)
  | str (s : String)
  | arr (xs : List Json)
  | obj (fields : List (String × Json))
deriving Repr

/-- Derived `Serialize` for `Alert`: an object with the struct's fields
in declaration order. -/
def alertToJson (a : Alert) : Json :=
  .obj [("room_id", .str a.room_id), ("player_id", .str a.player_id),
        ("user_id", .str a.user_id), ("notified", .bool a.notified),
        ("delay", .num a.delay), ("player_url", .str a.player_url)]

/-- Derived `Serialize` for the registry: a `HashMap<String, HashSet<Alert>>`
serializes as an object whose values are arrays of alert objects. -/
def registryToJson (r : Registry) : Json :=
  .obj (r.map (fun e => (e.1, .arr (e.2.map alertToJson))))

/-- Field lookup inside a JSON object's field list. -/
def jLookup (fields : List (String × Json)) (k : String) : Option Json :=
  match fields with
  | [] => none
  | (k', v) :: t => if k' = k then some v else jLookup t k

/-- Decode a JSON string. -/
def jStr : Json → Option String
  | .str s => some s
  | _ => none

/-- Decode a JSON boolean. -/
def jBool : Json → Option Bool
  | .bool b => some b
  | _ => none

/-- Decode a JSON number as a `u64`. -/
def jNum : Json → Option Nat
  | .num n => some n
  | _ => none

/-- Derived `Deserialize` for `Alert`: expects an object and extracts
each field with its expected type; any missing or ill-typed field is a
decode error. -/
def alertFromJson : Json → Option Alert
  | .obj fs => do
      let room_id ← jLookup fs "room_id" >>= jStr
      let player_id ← jLookup fs "player_id" >>= jStr
      let user_id ← jLookup fs "user_id" >>= jStr
      let notified ← jLookup fs "notified" >>= jBool
      let delay ← jLookup fs "delay" >>= jNum
      let player_url ← jLookup fs "player_url" >>= jStr
      some ⟨room_id, player_id, user_id, notified, delay, player_url⟩
  | _ => none

/-- Derived `Deserialize` for `HashSet<Alert>`: expects an array, decodes each
element and inserts it into the set. -/
def alertSetFromJson : Json → Option AlertSet
  | .arr xs => go xs []
  | _ => none
where
  /-- Decode the array elements in order, inserting each into the
  accumulated set. -/
  go : List Json → AlertSet → Option AlertSet
  | [], acc => some acc
  | x :: t, acc => do
      let a ← alertFromJson x
      go t (insertAlert acc a)

/-- Derived `Deserialize` for the registry: expects an object, decodes each
value as an alert set and inserts the entries in order. -/
def registryFromJson : Json → Option Registry
  | .obj fs => go fs []
  | _ => none
where
  /-- Insert an entry with `HashMap::insert` semantics (replace the
  value of an existing key). -/
  regInsert (r : Registry) (g : String) (s : AlertSet) : Registry :=
    match r with
    | [] => [(g, s)]
    | (k, v) :: t => if k = g then (k, s) :: t else (k, v) :: regInsert t g s
  /-- Decode the object's fields in order. -/
  go : List (String × Json) → Registry → Option Registry
  | [], acc => some acc
  | (g, v) :: t, acc => do
      let s ← alertSetFromJson v
      go t (regInsert acc g s)

/-- The state of the alerts file, as seen through
`fs::read_to_string` and `serde_json::from_str`: the file may be
missing, hold text that is not valid JSON, or hold a JSON document. -/
inductive FileContent where
  | missing
  | malformed
  | json (j : Json)
deriving Repr

/-- Embeds `AlertLoader::load`: a missing file yields an empty map (warned and
swallowed); content that fails to parse or decode yields an empty map
(logged and swallowed); otherwise the decoded registry. -/
def load (f : FileContent) : Registry :=
  match f with
  | .missing => []
  | .malformed => []
  | .json j =>
      match registryFromJson j with
      | some r => r
      | none => []

/-- Embeds `AlertLoader::persist_alerts_map`: serialize the registry and
overwrite the file with it. -/
def persist_alerts_map (r : Registry) : FileContent :=
  .json (registryToJson r)

/-- The keys of a JSON object (the game ids of a persisted registry). -/
def jKeys : Json → List String
  | .obj fields => fields.map Prod.fst
  | _ => []

/-- The `HashMap` invariant on the task table: entries are keyed by
pairwise distinct alert identities. -/
abbrev HandlesWF (hs : Handles) : Prop :=
  hs.Pairwise (fun e1 e2 => alertEq e1.1 e2.1 = false)

/-- The number of task-table entries keyed by the given alert
identity. -/
def countId (hs : Handles) (a : Alert) : Nat :=
  (hs.filter (fun e => alertEq e.1 a)).length

/-- The ids of the spawned tasks for the given alert identity that are
still pending: neither aborted nor already run. -/
def pendingFor (c : Controller) (a : Alert) : List Nat :=
  (c.tasks.filter (fun e =>
    alertEq e.2 a && decide (e.1 ∉ c.aborted) && decide (e.1 ∉ c.expired))).map
    Prod.fst

/-! ## Lemmas about alert identity -/

theorem alertEq_iff (a b : Alert) :
    alertEq a b = true ↔ identity a = identity b := by
  simp only [alertEq, identity, Bool.and_eq_true, beq_iff_eq, Prod.mk.injEq]
  tauto

theorem alertEq_refl (a : Alert) : alertEq a a = true := by
  simp [alertEq]

theorem alertEq_symm (a b : Alert) : alertEq a b = alertEq b a := by
  by_cases h : alertEq a b = true
  · have h' := (alertEq_iff a b).mp h
    rw [h, ((alertEq_iff b a).mpr h'.symm)]
  · by_cases h2 : alertEq b a = true
    · exact absurd ((alertEq_iff a b).mpr ((alertEq_iff b a).mp h2).symm) h
    · rw [Bool.not_eq_true] at h h2
      rw [h, h2]

theorem alertEq_trans {a b c : Alert} (h1 : alertEq a b = true)
    (h2 : alertEq b c = true) : alertEq a c = true :=
  (alertEq_iff a c).mpr (((alertEq_iff a b).mp h1).trans ((alertEq_iff b c).mp h2))

theorem alertEq_set_notified_left (a b : Alert) (n : Bool) :
    alertEq { a with notified := n } b = alertEq a b := by
  simp [alertEq]

theorem alertEq_set_notified_right (a b : Alert) (n : Bool) :
    alertEq a { b with notified := n } = alertEq a b := by
  simp [alertEq]

/-- C1: for every two Alerts `a` and `b`, `a == b` if and only if their
`(room_id, player_id, user_id)` triples are equal, regardless of
`notified`, `delay`, and `player_url`; and whenever the triples are
equal, `hash(a) == hash(b)` (for any streaming string hasher and any
initial hasher state). -/
theorem alert_identity_eq_and_hash (a b : Alert) :
    (alertEq a b = true ↔ identity a = identity b) ∧
    (identity a = identity b →
      ∀ (hashStr : Nat → String → Nat) (state : Nat),
        alertHash hashStr state a = alertHash hashStr state b) := by
  refine ⟨alertEq_iff a b, fun h hashStr state => ?_⟩
  simp only [identity, Prod.mk.injEq] at h
  obtain ⟨h1, h2, h3⟩ := h
  simp [alertHash, h1, h2, h3]

/-- Witness for `alert_identity_eq_and_hash` at two concrete alerts that
differ in `notified`, `delay` and `player_url`. -/
theorem alert_identity_eq_and_hash_witness :
    alertEq ⟨"r1", "p1", "u1", false, 10, "url1"⟩ ⟨"r1", "p1", "u1", true, 20, "url2"⟩ = true ∧
    alertHash (fun s t => s * 31 + t.length) 7 ⟨"r1", "p1", "u1", false, 10, "url1"⟩ =
      alertHash (fun s t => s * 31 + t.length) 7 ⟨"r1", "p1", "u1", true, 20, "url2"⟩ := by
  have h := alert_identity_eq_and_hash
    ⟨"r1", "p1", "u1", false, 10, "url1"⟩ ⟨"r1", "p1", "u1", true, 20, "url2"⟩
  exact ⟨h.1.mpr (by decide), h.2 (by decide) (fun s t => s * 31 + t.length) 7⟩

/-! ## Lemmas about the set and map embeddings -/

theorem memAlert_true_of_mem {s : AlertSet} {b a : Alert} (hb : b ∈ s)
    (hid : alertEq b a = true) : memAlert s a = true := by
  simp only [memAlert, List.any_eq_true]
  exact ⟨b, hb, hid⟩

theorem insertAlert_of_memAlert {s : AlertSet} {a : Alert}
    (h : memAlert s a = true) : insertAlert s a = s := by
  simp [insertAlert, h]

theorem insertAlert_of_not_memAlert {s : AlertSet} {a : Alert}
    (h : memAlert s a = false) : insertAlert s a = s ++ [a] := by
  simp [insertAlert, h]

theorem mem_insertAlert_of_mem {s : AlertSet} {x : Alert} (a : Alert)
    (h : x ∈ s) : x ∈ insertAlert s a := by
  unfold insertAlert
  split
  · exact h
  · exact List.mem_append_left _ h

theorem mem_removeAlert_of_mem {s : AlertSet} {x : Alert} {a : Alert}
    (h : x ∈ s) (hne : alertEq x a = false) : x ∈ removeAlert s a := by
  simp only [removeAlert, List.mem_filter, Bool.not_eq_true']
  exact ⟨h, hne⟩

theorem memAlert_removeAlert_self {s : AlertSet} {a b : Alert}
    (hab : alertEq b a = true) : memAlert (removeAlert s a) b = false := by
  simp only [memAlert, removeAlert, List.any_eq_false, List.mem_filter,
    Bool.not_eq_true']
  rintro x ⟨-, hxa⟩
  by_contra hxb
  simp [alertEq_trans hxb hab] at hxa

theorem regLookup_regUpdate_self (r : Registry) (g : String)
    (f : AlertSet → AlertSet) :
    regLookup (regUpdate r g f) g = (regLookup r g).map f := by
  induction r with
  | nil => rfl
  | cons e t ih =>
      obtain ⟨k, s⟩ := e
      by_cases h : k = g <;> simp [regUpdate, regLookup, h, ih]

theorem regLookup_regUpdate_ne (r : Registry) {g g' : String}
    (f : AlertSet → AlertSet) (h : g ≠ g') :
    regLookup (regUpdate r g f) g' = regLookup r g' := by
  induction r with
  | nil => rfl
  | cons e t ih =>
      obtain ⟨k, s⟩ := e
      by_cases hk : k = g
      · subst hk
        simp [regUpdate, regLookup, h, ih]
      · by_cases hk' : k = g'
        · subst hk'
          simp [regUpdate, regLookup, hk]
        · simp [regUpdate, regLookup, hk, hk', ih]

theorem regUpdate_keys (r : Registry) (g : String) (f : AlertSet → AlertSet) :
    (regUpdate r g f).map Prod.fst = r.map Prod.fst := by
  induction r with
  | nil => rfl
  | cons e t ih =>
      obtain ⟨k, s⟩ := e
      by_cases h : k = g <;> simp [regUpdate, h, ih]

/-- C2: adding an alert whose identity is already present in a game's
set leaves the game's stored set entirely unchanged: the original
entry's `notified` and `delay` survive, the inserted alert is
discarded, and the set's size is unchanged. -/
theorem add_alert_keeps_existing (r : Registry) (g : String) (a b : Alert)
    (S : AlertSet) (hS : regLookup r g = some S) (hb : b ∈ S)
    (hid : alertEq b a = true) :
    ∃ S', regLookup (add_alert r g a) g = some S' ∧ S' = S ∧ b ∈ S' ∧
      S'.length = S.length := by
  have hmem : memAlert S a = true := memAlert_true_of_mem hb hid
  refine ⟨S, ?_, rfl, hb, rfl⟩
  unfold add_alert
  rw [hS, regLookup_regUpdate_self, hS]
  simp [insertAlert_of_memAlert hmem]

/-- Witness for `add_alert_keeps_existing`: re-registering an alert with
a different `notified`/`delay` keeps the original entry. -/
theorem add_alert_keeps_existing_witness :
    ∃ S', regLookup (add_alert
        [("g1", [⟨"r1", "p1", "u1", false, 10, "url1"⟩])] "g1"
        ⟨"r1", "p1", "u1", true, 99, "url2"⟩) "g1" = some S' ∧
      S' = [⟨"r1", "p1", "u1", false, 10, "url1"⟩] ∧
      (⟨"r1", "p1", "u1", false, 10, "url1"⟩ : Alert) ∈ S' ∧
      S'.length = [(⟨"r1", "p1", "u1", false, 10, "url1"⟩ : Alert)].length :=
  add_alert_keeps_existing _ "g1" ⟨"r1", "p1", "u1", true, 99, "url2"⟩
    ⟨"r1", "p1", "u1", false, 10, "url1"⟩ _ (by decide) (by decide) (by decide)

/-! ## Persistence claims -/

/-- C9: loading from a missing storage file, from a file whose text is
not valid JSON, and from a file whose JSON does not decode as a
registry each return an empty registry; `load` is total, so no error is
raised or propagated. -/
theorem load_degrades_to_empty (j : Json) (h : registryFromJson j = none) :
    load .missing = [] ∧ load .malformed = [] ∧ load (.json j) = [] := by
  refine ⟨rfl, rfl, ?_⟩
  simp [load, h]

/-- Witness for `load_degrades_to_empty` at a JSON document that is not
an object and hence fails to decode. -/
theorem load_degrades_to_empty_witness :
    load .missing = [] ∧ load .malformed = [] ∧ load (.json (.num 3)) = [] :=
  load_degrades_to_empty (.num 3) rfl

theorem jKeys_registryToJson (r : Registry) :
    jKeys (registryToJson r) = r.map Prod.fst := by
  simp [registryToJson, jKeys]

/-- C10: removing a user's alerts from an existing game never removes
the game's key: the registry's key list is unchanged, the game still
maps to the (possibly now empty) filtered set, the snapshot
(`get_alerts_map` clone) shows the same registry, and the persisted
JSON object still carries the game's key. -/
theorem remove_alerts_keeps_game_key (r : Registry) (g room user : String)
    (S : AlertSet) (hS : regLookup r g = some S) :
    (remove_alerts r g room user).map Prod.fst = r.map Prod.fst ∧
    regLookup (remove_alerts r g room user) g =
      some (S.filter (fun a => a.room_id != room || a.user_id != user)) ∧
    jKeys (registryToJson (remove_alerts r g room user)) = r.map Prod.fst := by
  unfold remove_alerts
  rw [hS]
  refine ⟨regUpdate_keys .., ?_, ?_⟩
  · rw [regLookup_regUpdate_self, hS]
    rfl
  · rw [jKeys_registryToJson, regUpdate_keys]

/-- Witness for `remove_alerts_keeps_game_key` at a one-game registry
whose only alert is removed: the key survives with an empty set. -/
theorem remove_alerts_keeps_game_key_witness :
    (remove_alerts [("g1", [⟨"r1", "p1", "u1", false, 10, "url1"⟩])]
        "g1" "r1" "u1").map Prod.fst =
      [("g1", [(⟨"r1", "p1", "u1", false, 10, "url1"⟩ : Alert)])].map Prod.fst ∧
    regLookup (remove_alerts [("g1", [⟨"r1", "p1", "u1", false, 10, "url1"⟩])]
        "g1" "r1" "u1") "g1" =
      some ([⟨"r1", "p1", "u1", false, 10, "url1"⟩].filter
        (fun a => a.room_id != "r1" || a.user_id != "u1")) ∧
    jKeys (registryToJson (remove_alerts
        [("g1", [⟨"r1", "p1", "u1", false, 10, "url1"⟩])] "g1" "r1" "u1")) =
      [("g1", [(⟨"r1", "p1", "u1", false, 10, "url1"⟩ : Alert)])].map Prod.fst :=
  remove_alerts_keeps_game_key _ "g1" "r1" "u1" _ (by decide)

/-! ## Persistence round trip (C8) -/

theorem alertFromJson_alertToJson (a : Alert) :
    alertFromJson (alertToJson a) = some a := by
  simp [alertFromJson, alertToJson, jLookup, jStr, jBool, jNum]

theorem memAlert_append (s t : AlertSet) (a : Alert) :
    memAlert (s ++ t) a = (memAlert s a || memAlert t a) := by
  simp [memAlert, List.any_append]

theorem alertSetFromJson_go_roundtrip (S : AlertSet) (acc : AlertSet)
    (hacc : ∀ a ∈ S, memAlert acc a = false) (hS : IdNodup S) :
    alertSetFromJson.go (S.map alertToJson) acc = some (acc ++ S) := by
  induction S generalizing acc with
  | nil => simp [alertSetFromJson.go]
  | cons a t ih =>
      replace hS := List.pairwise_cons.mp hS
      rw [List.map_cons]
      rw [show alertSetFromJson.go (alertToJson a :: List.map alertToJson t) acc =
        (alertFromJson (alertToJson a)).bind
          (fun x => alertSetFromJson.go (List.map alertToJson t) (insertAlert acc x))
        from rfl]
      rw [alertFromJson_alertToJson, Option.some_bind]
      rw [insertAlert_of_not_memAlert (hacc a (List.mem_cons_self a t))]
      rw [ih (acc ++ [a]) ?_ hS.2]
      · simp
      · intro b hb
        rw [memAlert_append]
        have h1 : memAlert acc b = false := hacc b (List.mem_cons_of_mem a hb)
        have h2 : memAlert [a] b = false := by
          simp only [memAlert, List.any_cons, List.any_nil, Bool.or_false]
          exact hS.1 b hb
        rw [h1, h2, Bool.or_false]

theorem alertSetFromJson_roundtrip (S : AlertSet) (hS : IdNodup S) :
    alertSetFromJson (.arr (S.map alertToJson)) = some S := by
  rw [show alertSetFromJson (.arr (S.map alertToJson)) =
    alertSetFromJson.go (S.map alertToJson) [] from rfl]
  rw [alertSetFromJson_go_roundtrip S [] (fun a _ => rfl) hS]
  rfl

theorem regInsert_not_mem (acc : Registry) (g : String) (s : AlertSet)
    (h : g ∉ acc.map Prod.fst) :
    registryFromJson.regInsert acc g s = acc ++ [(g, s)] := by
  induction acc with
  | nil => rfl
  | cons e t ih =>
      obtain ⟨k, v⟩ := e
      simp only [List.map_cons, List.mem_cons, not_or] at h
      simp [registryFromJson.regInsert, Ne.symm h.1, ih h.2]

theorem registryFromJson_go_roundtrip (r : Registry) (acc : Registry)
    (hacc : ∀ k ∈ r.map Prod.fst, k ∉ acc.map Prod.fst)
    (hkeys : (r.map Prod.fst).Nodup)
    (hsets : ∀ e ∈ r, IdNodup e.2) :
    registryFromJson.go
      (r.map (fun e => (e.1, Json.arr (e.2.map alertToJson)))) acc =
      some (acc ++ r) := by
  induction r generalizing acc with
  | nil => simp [registryFromJson.go]
  | cons e t ih =>
      obtain ⟨g, S⟩ := e
      simp only [List.map_cons, List.nodup_cons] at hkeys
      rw [List.map_cons]
      rw [show registryFromJson.go
          ((g, Json.arr (S.map alertToJson)) ::
            t.map (fun e => (e.1, Json.arr (e.2.map alertToJson)))) acc =
        (alertSetFromJson (Json.arr (S.map alertToJson))).bind
          (fun s => registryFromJson.go
            (t.map (fun e => (e.1, Json.arr (e.2.map alertToJson))))
            (registryFromJson.regInsert acc g s)) from rfl]
      rw [alertSetFromJson_roundtrip S (hsets (g, S) (List.mem_cons_self (g, S) t)),
        Option.some_bind]
      rw [regInsert_not_mem acc g S (hacc g (by simp))]
      rw [ih (acc ++ [(g, S)]) ?_ hkeys.2 (fun e he => hsets e (List.mem_cons_of_mem _ he))]
      · simp
      · intro k hk
        simp only [List.map_append, List.map_cons, List.map_nil, List.mem_append,
          List.mem_cons, List.not_mem_nil, or_false, not_or]
        refine ⟨hacc k (by simp [hk]), ?_⟩
        intro hkg
        subst hkg
        exact hkeys.1 hk

theorem registryFromJson_registryToJson (r : Registry)
    (hkeys : (r.map Prod.fst).Nodup) (hsets : ∀ e ∈ r, IdNodup e.2) :
    registryFromJson (registryToJson r) = some r := by
  rw [show registryFromJson (registryToJson r) =
    registryFromJson.go
      (r.map (fun e => (e.1, Json.arr (e.2.map alertToJson)))) [] from rfl]
  rw [registryFromJson_go_roundtrip r [] (fun k _ => by simp) hkeys hsets]
  rfl

/-- C8: persisting any registry (with the `HashMap`/`HashSet`
invariants: distinct game keys, per-game sets distinct by alert
identity) and loading it back from the same file yields exactly the
original registry — same game keys and, per game, the same alerts,
agreeing on identity as well as on `notified`, `delay` and
`player_url`. -/
theorem load_persist_roundtrip (r : Registry)
    (hkeys : (r.map Prod.fst).Nodup) (hsets : ∀ e ∈ r, IdNodup e.2) :
    load (persist_alerts_map r) = r := by
  simp [load, persist_alerts_map, registryFromJson_registryToJson r hkeys hsets]

/-- Witness for `load_persist_roundtrip` at a two-game registry, one
game holding two alerts and the other a single notified alert. -/
theorem load_persist_roundtrip_witness :
    load (persist_alerts_map
      [("g1", [⟨"r1", "p1", "u1", false, 10, "url1"⟩,
               ⟨"r1", "p2", "u2", true, 20, "url2"⟩]),
       ("g2", [⟨"r2", "p3", "u3", true, 30, "url3"⟩])]) =
      [("g1", [⟨"r1", "p1", "u1", false, 10, "url1"⟩,
               ⟨"r1", "p2", "u2", true, 20, "url2"⟩]),
       ("g2", [⟨"r2", "p3", "u3", true, 30, "url3"⟩])] :=
  load_persist_roundtrip _ (by decide) (by decide)

/-! ## Task-expiry claims -/

/-- C6 counterexample: fire an alert, let its task expire uncancelled;
the callback runs (`fired = [a]`) yet the task table still maps the
alert's identity to the completed task's handle — the entry is not
dropped, contradicting the claim that after the callback the table no
longer maps that identity. -/
theorem taskExpire_entry_persists_cex :
    (taskExpire (fire_alert ⟨[], [], [], 0, [], [], []⟩
        [("game1", ⟨"r1", "p1", "u1", false, 5, "url1"⟩)]) 0).fired =
      [⟨"r1", "p1", "u1", false, 5, "url1"⟩] ∧
    hLookup (taskExpire (fire_alert ⟨[], [], [], 0, [], [], []⟩
        [("game1", ⟨"r1", "p1", "u1", false, 5, "url1"⟩)]) 0).handles
      ⟨"r1", "p1", "u1", false, 5, "url1"⟩ = some 0 := by
  decide

/-- C6 as amended: when a spawned task's delay elapses without the task
having been aborted (and without having already run), the fire callback
is invoked with the captured alert, and the task table is left entirely
unchanged — the entry for the alert's identity remains, mapped to the
now-completed task, until some later `abort`-and-remove path
(reconciliation reset, prune, or a superseding fire) drops it. -/
theorem taskExpire_fires_and_keeps_entry (c : Controller) (id : Nat) (a : Alert)
    (h1 : tLookup c.tasks id = some a) (h2 : id ∉ c.aborted)
    (h3 : id ∉ c.expired) :
    (taskExpire c id).fired = c.fired ++ [a] ∧
    (taskExpire c id).handles = c.handles := by
  simp [taskExpire, h1, h2, h3]

/-! ## Task-table lemmas -/

theorem alertEq_false_congr {k a b : Alert} (hka : alertEq k a = false)
    (hab : alertEq a b = true) : alertEq k b = false := by
  cases hkb : alertEq k b with
  | false => rfl
  | true =>
      have hba : alertEq b a = true := (alertEq_symm b a).trans hab
      rw [alertEq_trans hkb hba] at hka
      exact hka

theorem hLookup_congr {a b : Alert} (hs : Handles) (hab : alertEq a b = true) :
    hLookup hs a = hLookup hs b := by
  induction hs with
  | nil => rfl
  | cons e t ih =>
      obtain ⟨k, v⟩ := e
      rw [hLookup, hLookup]
      cases hk : alertEq k a with
      | true =>
          rw [alertEq_trans hk hab]
          simp
      | false =>
          rw [alertEq_false_congr hk hab]
          simpa using ih

theorem hRemove_cons_hit {k a : Alert} {v : Nat} (t : Handles)
    (hk : alertEq k a = true) : hRemove ((k, v) :: t) a = hRemove t a := by
  simp [hRemove, List.filter_cons, hk]

theorem hRemove_cons_miss {k a : Alert} {v : Nat} (t : Handles)
    (hk : alertEq k a = false) :
    hRemove ((k, v) :: t) a = (k, v) :: hRemove t a := by
  simp [hRemove, List.filter_cons, hk]

theorem hLookup_hRemove_of_eq {a b : Alert} (hs : Handles)
    (hab : alertEq b a = true) : hLookup (hRemove hs a) b = none := by
  induction hs with
  | nil => rfl
  | cons e t ih =>
      obtain ⟨k, v⟩ := e
      cases hk : alertEq k a with
      | true =>
          rw [hRemove_cons_hit t hk]
          exact ih
      | false =>
          have hkb : alertEq k b = false :=
            alertEq_false_congr hk ((alertEq_symm a b).trans hab)
          rw [hRemove_cons_miss t hk, hLookup, hkb]
          simpa using ih

theorem hLookup_hRemove_of_ne {a b : Alert} (hs : Handles)
    (hab : alertEq b a = false) : hLookup (hRemove hs a) b = hLookup hs b := by
  induction hs with
  | nil => rfl
  | cons e t ih =>
      obtain ⟨k, v⟩ := e
      cases hk : alertEq k a with
      | true =>
          have hkb : alertEq k b = false := by
            cases hkb : alertEq k b with
            | false => rfl
            | true =>
                have hbk : alertEq b k = true := (alertEq_symm b k).trans hkb
                rw [alertEq_trans hbk hk] at hab
                exact hab
          rw [hRemove_cons_hit t hk, hLookup, hkb]
          simpa using ih
      | false =>
          rw [hRemove_cons_miss t hk, hLookup, hLookup]
          cases hkb : alertEq k b with
          | true => simp
          | false => simpa using ih

theorem hLookup_hRemove_rev {a b : Alert} {hs : Handles} {id : Nat}
    (h : hLookup (hRemove hs a) b = some id) : hLookup hs b = some id := by
  cases hab : alertEq b a with
  | true =>
      rw [hLookup_hRemove_of_eq hs hab] at h
      exact absurd h (by simp)
  | false =>
      rw [hLookup_hRemove_of_ne hs hab] at h
      exact h

/-! ## Lemmas about `abortAlerts` (the prune path of `clean_alerts`) -/

theorem abortAlerts_rev (alerts : AlertSet) (hs : Handles) (ab : List Nat)
    {a : Alert} {id : Nat}
    (h : hLookup (abortAlerts hs ab alerts).1 a = some id) :
    hLookup hs a = some id := by
  induction alerts generalizing hs ab with
  | nil => exact h
  | cons x t ih =>
      rw [abortAlerts] at h
      cases hx : hLookup hs x with
      | some j =>
          rw [hx] at h
          exact hLookup_hRemove_rev (ih _ _ h)
      | none =>
          rw [hx] at h
          exact ih _ _ h

theorem abortAlerts_none (alerts : AlertSet) (hs : Handles) (ab : List Nat)
    {a : Alert} (h : hLookup hs a = none) :
    hLookup (abortAlerts hs ab alerts).1 a = none := by
  cases hout : hLookup (abortAlerts hs ab alerts).1 a with
  | none => rfl
  | some id => rw [abortAlerts_rev alerts hs ab hout] at h; exact h.symm ▸ rfl

theorem abortAlerts_ab_mono (alerts : AlertSet) (hs : Handles) (ab : List Nat)
    {x : Nat} (h : x ∈ ab) : x ∈ (abortAlerts hs ab alerts).2 := by
  induction alerts generalizing hs ab with
  | nil => exact h
  | cons y t ih =>
      rw [abortAlerts]
      cases hy : hLookup hs y with
      | some j => exact ih _ _ (List.mem_cons_of_mem j h)
      | none => exact ih _ _ h

theorem abortAlerts_some_or (alerts : AlertSet) (hs : Handles) (ab : List Nat)
    {a : Alert} {id : Nat} (h : hLookup hs a = some id) :
    hLookup (abortAlerts hs ab alerts).1 a = some id ∨
      id ∈ (abortAlerts hs ab alerts).2 := by
  induction alerts generalizing hs ab with
  | nil => exact Or.inl h
  | cons x t ih =>
      rw [abortAlerts]
      cases hx : hLookup hs x with
      | some j =>
          cases hax : alertEq a x with
          | true =>
              right
              have heq : hLookup hs a = hLookup hs x := hLookup_congr hs hax
              rw [h, hx] at heq
              injection heq with hij
              subst hij
              exact abortAlerts_ab_mono t _ _ (List.mem_cons_self _ _)
          | false =>
              exact ih (hRemove hs x) (j :: ab)
                ((hLookup_hRemove_of_ne hs hax).trans h)
      | none => exact ih hs ab h

theorem abortAlerts_none_of_mem (alerts : AlertSet) (hs : Handles)
    (ab : List Nat) {a : Alert} (ha : a ∈ alerts) :
    hLookup (abortAlerts hs ab alerts).1 a = none := by
  induction alerts generalizing hs ab with
  | nil => exact absurd ha (List.not_mem_nil a)
  | cons x t ih =>
      rw [abortAlerts]
      rcases List.mem_cons.mp ha with rfl | hat
      · cases hx : hLookup hs a with
        | some j =>
            exact abortAlerts_none t _ _ (hLookup_hRemove_of_eq hs (alertEq_refl a))
        | none => exact abortAlerts_none t _ _ hx
      · cases hx : hLookup hs x with
        | some j => exact ih _ _ hat
        | none => exact ih _ _ hat

/-! ## Lemmas about `cleanGo` (`clean_alerts`) -/

theorem cleanGo_rev (gm : GamesMap) (r : Registry) (hs : Handles)
    (ab : List Nat) {a : Alert} {id : Nat}
    (h : hLookup (cleanGo gm r hs ab).2.1 a = some id) :
    hLookup hs a = some id := by
  induction r generalizing hs ab with
  | nil => exact h
  | cons e t ih =>
      obtain ⟨g, s⟩ := e
      rw [cleanGo] at h
      by_cases hg : (gmLookup gm g).isSome
      · rw [if_pos hg] at h
        exact ih _ _ h
      · rw [if_neg hg] at h
        exact abortAlerts_rev s hs ab (ih _ _ h)

theorem cleanGo_none (gm : GamesMap) (r : Registry) (hs : Handles)
    (ab : List Nat) {a : Alert} (h : hLookup hs a = none) :
    hLookup (cleanGo gm r hs ab).2.1 a = none := by
  cases hout : hLookup (cleanGo gm r hs ab).2.1 a with
  | none => rfl
  | some id => rw [cleanGo_rev gm r hs ab hout] at h; exact h.symm ▸ rfl

theorem cleanGo_ab_mono (gm : GamesMap) (r : Registry) (hs : Handles)
    (ab : List Nat) {x : Nat} (h : x ∈ ab) : x ∈ (cleanGo gm r hs ab).2.2 := by
  induction r generalizing hs ab with
  | nil => exact h
  | cons e t ih =>
      obtain ⟨g, s⟩ := e
      rw [cleanGo]
      by_cases hg : (gmLookup gm g).isSome
      · rw [if_pos hg]
        exact ih _ _ h
      · rw [if_neg hg]
        exact ih _ _ (abortAlerts_ab_mono s hs ab h)

theorem cleanGo_some_or (gm : GamesMap) (r : Registry) (hs : Handles)
    (ab : List Nat) {a : Alert} {id : Nat} (h : hLookup hs a = some id) :
    hLookup (cleanGo gm r hs ab).2.1 a = some id ∨
      id ∈ (cleanGo gm r hs ab).2.2 := by
  induction r generalizing hs ab with
  | nil => exact Or.inl h
  | cons e t ih =>
      obtain ⟨g, s⟩ := e
      rw [cleanGo]
      by_cases hg : (gmLookup gm g).isSome
      · rw [if_pos hg]
        exact ih _ _ h
      · rw [if_neg hg]
        rcases abortAlerts_some_or s hs ab h with h' | h'
        · exact ih _ _ h'
        · exact Or.inr (cleanGo_ab_mono gm t _ _ h')

theorem cleanGo_reg_none (gm : GamesMap) (r : Registry) (hs : Handles)
    (ab : List Nat) {G : String} (hG : gmLookup gm G = none) :
    regLookup (cleanGo gm r hs ab).1 G = none := by
  induction r generalizing hs ab with
  | nil => rfl
  | cons e t ih =>
      obtain ⟨g, s⟩ := e
      rw [cleanGo]
      by_cases hg : (gmLookup gm g).isSome
      · rw [if_pos hg]
        have hne : g ≠ G := by
          intro hgG
          rw [hgG, hG] at hg
          exact absurd hg (by simp)
        rw [regLookup, if_neg hne]
        exact ih _ _
      · rw [if_neg hg]
        exact ih _ _

theorem cleanGo_handle_none (gm : GamesMap) (r : Registry) (hs : Handles)
    (ab : List Nat) {G : String} {S : AlertSet} {a : Alert}
    (hG : gmLookup gm G = none) (hS : regLookup r G = some S) (ha : a ∈ S) :
    hLookup (cleanGo gm r hs ab).2.1 a = none := by
  induction r generalizing hs ab with
  | nil => exact absurd hS (by simp [regLookup])
  | cons e t ih =>
      obtain ⟨g, s⟩ := e
      rw [cleanGo]
      by_cases hgG : g = G
      · subst hgG
        have hg : ¬(gmLookup gm g).isSome := by rw [hG]; simp
        rw [if_neg hg]
        rw [regLookup, if_pos rfl] at hS
        injection hS with hsS
        subst hsS
        exact cleanGo_none gm t _ _ (abortAlerts_none_of_mem s hs ab ha)
      · rw [regLookup, if_neg hgG] at hS
        by_cases hg : (gmLookup gm g).isSome
        · rw [if_pos hg]
          exact ih _ _ hS
        · rw [if_neg hg]
          exact ih _ _ hS

/-- C4: reconciling against a games map that lacks a game `G` present
in the registry removes `G` wholesale: afterwards the registry has no
entry for `G`, the task table holds no handle for any alert that was
registered under `G`, and every handle those alerts did hold has been
aborted. -/
theorem clean_alerts_prune_complete (c : Controller) (gm : GamesMap)
    (G : String) (S : AlertSet) (hG : gmLookup gm G = none)
    (hS : regLookup c.alerts_map G = some S) :
    regLookup (clean_alerts c gm).alerts_map G = none ∧
    ∀ a ∈ S, hLookup (clean_alerts c gm).handles a = none ∧
      ∀ id, hLookup c.handles a = some id → id ∈ (clean_alerts c gm).aborted := by
  refine ⟨cleanGo_reg_none gm c.alerts_map c.handles c.aborted hG, fun a ha => ?_⟩
  have hnone : hLookup (clean_alerts c gm).handles a = none :=
    cleanGo_handle_none gm c.alerts_map c.handles c.aborted hG hS ha
  refine ⟨hnone, fun id hid => ?_⟩
  rcases cleanGo_some_or gm c.alerts_map c.handles c.aborted hid with h' | h'
  · rw [show (clean_alerts c gm).handles =
      (cleanGo gm c.alerts_map c.handles c.aborted).2.1 from rfl] at hnone
    rw [h'] at hnone
    exact absurd hnone (by simp)
  · exact h'

/-- Witness for `clean_alerts_prune_complete`: a registry with games
`g1` (one alert, with a pending task) and `g2`, reconciled against a
games map containing only `g2`. -/
theorem clean_alerts_prune_complete_witness :
    regLookup (clean_alerts
      ⟨[("g1", [⟨"r1", "p1", "u1", true, 10, "url1"⟩]),
        ("g2", [⟨"r2", "p2", "u2", false, 20, "url2"⟩])],
       [(⟨"r1", "p1", "u1", true, 10, "url1"⟩, 0)],
       [(0, ⟨"r1", "p1", "u1", true, 10, "url1"⟩)], 1, [], [], []⟩
      [("g2", ⟨["p9"]⟩)]).alerts_map "g1" = none ∧
    ∀ a ∈ [(⟨"r1", "p1", "u1", true, 10, "url1"⟩ : Alert)],
      hLookup (clean_alerts
        ⟨[("g1", [⟨"r1", "p1", "u1", true, 10, "url1"⟩]),
          ("g2", [⟨"r2", "p2", "u2", false, 20, "url2"⟩])],
         [(⟨"r1", "p1", "u1", true, 10, "url1"⟩, 0)],
         [(0, ⟨"r1", "p1", "u1", true, 10, "url1"⟩)], 1, [], [], []⟩
        [("g2", ⟨["p9"]⟩)]).handles a = none ∧
      ∀ id, hLookup [(⟨"r1", "p1", "u1", true, 10, "url1"⟩, 0)] a = some id →
        id ∈ (clean_alerts
          ⟨[("g1", [⟨"r1", "p1", "u1", true, 10, "url1"⟩]),
            ("g2", [⟨"r2", "p2", "u2", false, 20, "url2"⟩])],
           [(⟨"r1", "p1", "u1", true, 10, "url1"⟩, 0)],
           [(0, ⟨"r1", "p1", "u1", true, 10, "url1"⟩)], 1, [], [], []⟩
          [("g2", ⟨["p9"]⟩)]).aborted :=
  clean_alerts_prune_complete _ [("g2", ⟨["p9"]⟩)] "g1"
    [⟨"r1", "p1", "u1", true, 10, "url1"⟩] (by decide) (by decide)

/-- Witness for `taskExpire_fires_and_keeps_entry` at a concrete
one-task controller. -/
theorem taskExpire_fires_and_keeps_entry_witness :
    (taskExpire ⟨[], [(⟨"r1", "p1", "u1", false, 5, "url1"⟩, 0)],
        [(0, ⟨"r1", "p1", "u1", false, 5, "url1"⟩)], 1, [], [], []⟩ 0).fired =
      [] ++ [⟨"r1", "p1", "u1", false, 5, "url1"⟩] ∧
    (taskExpire ⟨[], [(⟨"r1", "p1", "u1", false, 5, "url1"⟩, 0)],
        [(0, ⟨"r1", "p1", "u1", false, 5, "url1"⟩)], 1, [], [], []⟩ 0).handles =
      [(⟨"r1", "p1", "u1", false, 5, "url1"⟩, 0)] :=
  taskExpire_fires_and_keeps_entry _ 0 _ (by decide) (by decide) (by decide)

/-! ## Debounce (C5) -/

theorem hLookup_hInsert_self (hs : Handles) (a : Alert) (v : Nat) :
    hLookup (hInsert hs a v) a = some v := by
  induction hs with
  | nil => simp [hInsert, hLookup, alertEq_refl]
  | cons e t ih =>
      obtain ⟨k, w⟩ := e
      cases hk : alertEq k a with
      | true => simp [hInsert, hLookup, hk]
      | false => simp [hInsert, hLookup, hk, ih]

theorem countId_zero_of_all_ne (hs : Handles) (a : Alert)
    (h : ∀ e ∈ hs, alertEq e.1 a = false) : countId hs a = 0 := by
  induction hs with
  | nil => rfl
  | cons e t ih =>
      rw [countId, List.filter_cons, if_neg (by simp [h e (List.mem_cons_self e t)])]
      exact ih (fun e2 he2 => h e2 (List.mem_cons_of_mem e he2))

theorem countId_eq_one_of_lookup (hs : Handles) (a : Alert) {id : Nat}
    (hw : HandlesWF hs) (h : hLookup hs a = some id) : countId hs a = 1 := by
  induction hs with
  | nil => simp [hLookup] at h
  | cons e t ih =>
      obtain ⟨k, w⟩ := e
      replace hw := List.pairwise_cons.mp hw
      cases hk : alertEq k a with
      | true =>
          have hall : ∀ e2 ∈ t, alertEq e2.1 a = false := by
            intro e2 he2
            cases he : alertEq e2.1 a with
            | false => rfl
            | true =>
                have h2 := alertEq_trans hk ((alertEq_symm a e2.1).trans he)
                rw [hw.1 e2 he2] at h2
                exact h2.symm
          rw [countId, List.filter_cons, if_pos (by simp [hk])]
          rw [List.length_cons]
          rw [show (List.filter (fun e => alertEq e.1 a) t).length = countId t a from rfl]
          rw [countId_zero_of_all_ne t a hall]
      | false =>
          rw [hLookup] at h
          rw [hk] at h
          simp only [Bool.false_eq_true, if_false] at h
          rw [countId, List.filter_cons, if_neg (by simp [hk])]
          exact ih hw.2 h

theorem countId_hInsert_present (hs : Handles) (a : Alert) (v : Nat) {id : Nat}
    (h : hLookup hs a = some id) : countId (hInsert hs a v) a = countId hs a := by
  induction hs with
  | nil => simp [hLookup] at h
  | cons e t ih =>
      obtain ⟨k, w⟩ := e
      cases hk : alertEq k a with
      | true =>
          rw [show hInsert ((k, w) :: t) a v = (k, v) :: t by simp [hInsert, hk]]
          rw [countId, countId, List.filter_cons, List.filter_cons]
          simp [hk]
      | false =>
          rw [hLookup] at h
          rw [hk] at h
          simp only [Bool.false_eq_true, if_false] at h
          rw [show hInsert ((k, w) :: t) a v = (k, w) :: hInsert t a v by
            simp [hInsert, hk]]
          rw [countId, countId, List.filter_cons, List.filter_cons]
          simp only [hk, Bool.false_eq_true, if_false]
          exact ih h

theorem filter_map_fst_singleton {l : List (Nat × Alert)}
    {p : Nat × Alert → Bool} {x : Nat}
    (h : (l.filter p).map Prod.fst = [x]) :
    ∃ e, l.filter p = [e] ∧ e.1 = x := by
  cases hf : l.filter p with
  | nil => rw [hf] at h; exact absurd h (by simp)
  | cons e t =>
      rw [hf] at h
      simp only [List.map_cons, List.cons.injEq] at h
      obtain ⟨h1, h2⟩ := h
      exact ⟨e, by rw [List.map_eq_nil_iff.mp h2], h1⟩

/-- C5: scheduling a fire for an identity that already has a task-table
entry first aborts the existing task, and scheduling two fires for the
same identity in quick succession leaves exactly one task-table entry
for that identity and exactly one pending task (the one spawned by the
second fire); both the originally pending task and the first fire's
task end up aborted.  The hypotheses are the controller's invariants:
well-formed task table, task/abort/expiry ids below `next_id`, and the
table entry's task being the only pending task for the identity. -/
theorem fire_alert_debounce (c : Controller) (g1 g2 : String) (a : Alert)
    (id : Nat) (hw : HandlesWF c.handles)
    (hfreshT : ∀ e ∈ c.tasks, e.1 < c.next_id)
    (hfreshA : ∀ x ∈ c.aborted, x < c.next_id)
    (hfreshE : ∀ x ∈ c.expired, x < c.next_id)
    (hid : hLookup c.handles a = some id)
    (hpend : pendingFor c a = [id]) :
    id ∈ (fire_alert (fire_alert c [(g1, a)]) [(g2, a)]).aborted ∧
    c.next_id ∈ (fire_alert (fire_alert c [(g1, a)]) [(g2, a)]).aborted ∧
    hLookup (fire_alert (fire_alert c [(g1, a)]) [(g2, a)]).handles a =
      some (c.next_id + 1) ∧
    countId (fire_alert (fire_alert c [(g1, a)]) [(g2, a)]).handles a = 1 ∧
    pendingFor (fire_alert (fire_alert c [(g1, a)]) [(g2, a)]) a =
      [c.next_id + 1] := by
  have hc1 : fire_alert c [(g1, a)] =
      { c with handles := hInsert c.handles a c.next_id,
               tasks := c.tasks ++ [(c.next_id, a)],
               next_id := c.next_id + 1,
               aborted := id :: c.aborted } := by
    rw [fire_alert, hid]
    rfl
  have hl1 : hLookup (hInsert c.handles a c.next_id) a = some c.next_id :=
    hLookup_hInsert_self c.handles a c.next_id
  have hc2 : fire_alert (fire_alert c [(g1, a)]) [(g2, a)] =
      { c with handles := hInsert (hInsert c.handles a c.next_id) a (c.next_id + 1),
               tasks := (c.tasks ++ [(c.next_id, a)]) ++ [(c.next_id + 1, a)],
               next_id := c.next_id + 1 + 1,
               aborted := c.next_id :: id :: c.aborted } := by
    rw [hc1, fire_alert]
    simp only [hl1]
    rfl
  rw [hc2]
  refine ⟨by simp, by simp, hLookup_hInsert_self .., ?_, ?_⟩
  · rw [countId_hInsert_present _ a _ hl1, countId_hInsert_present _ a _ hid]
    exact countId_eq_one_of_lookup c.handles a hw hid
  · obtain ⟨e0, he0, he0x⟩ := filter_map_fst_singleton hpend
    have hid_task : id < c.next_id := by
      have : e0 ∈ c.tasks := (List.mem_filter.mp (he0 ▸ List.mem_cons_self e0 [])).1
      exact he0x ▸ hfreshT e0 this
    rw [pendingFor]
    simp only [List.filter_append]
    have hnil : List.filter (fun e =>
        alertEq e.2 a && decide (e.1 ∉ c.next_id :: id :: c.aborted) &&
          decide (e.1 ∉ c.expired)) c.tasks = [] := by
      rw [List.filter_eq_nil_iff]
      intro e he
      by_contra hpe
      simp only [Bool.not_eq_false, Bool.and_eq_true, decide_eq_true_eq,
        List.mem_cons, not_or] at hpe
      obtain ⟨⟨hea, hab1, hab2, hab3⟩, hex⟩ := hpe
      have : e ∈ List.filter (fun e =>
          alertEq e.2 a && decide (e.1 ∉ c.aborted) &&
            decide (e.1 ∉ c.expired)) c.tasks := by
        rw [List.mem_filter]
        exact ⟨he, by simp [hea, hab3, hex]⟩
      rw [he0] at this
      rw [List.mem_singleton.mp this] at hab2
      exact hab2 he0x
    rw [hnil]
    have h1 : List.filter (fun e =>
        alertEq e.2 a && decide (e.1 ∉ c.next_id :: id :: c.aborted) &&
          decide (e.1 ∉ c.expired)) [(c.next_id, a)] = [] := by
      rw [List.filter_eq_nil_iff]
      intro e he
      rw [List.mem_singleton.mp he]
      simp
    have h2 : List.filter (fun e =>
        alertEq e.2 a && decide (e.1 ∉ c.next_id :: id :: c.aborted) &&
          decide (e.1 ∉ c.expired)) [(c.next_id + 1, a)] = [(c.next_id + 1, a)] := by
      rw [List.filter_eq_self]
      intro e he
      rw [List.mem_singleton.mp he]
      have hne1 : c.next_id + 1 ≠ c.next_id := by omega
      have hne2 : c.next_id + 1 ≠ id := by omega
      have hne3 : c.next_id + 1 ∉ c.aborted := fun hmem => by
        have := hfreshA _ hmem
        omega
      have hne4 : c.next_id + 1 ∉ c.expired := fun hmem => by
        have := hfreshE _ hmem
        omega
      simp [alertEq_refl, hne1, hne2, hne3, hne4]
    rw [h1, h2]
    simp

/-- Witness for `fire_alert_debounce`: a controller with one handled
pending task for the alert, fired twice in succession. -/
theorem fire_alert_debounce_witness :
    5 ∈ (fire_alert (fire_alert
      ⟨[], [(⟨"r1", "p1", "u1", false, 3, "url1"⟩, 5)],
       [(5, ⟨"r1", "p1", "u1", false, 3, "url1"⟩)], 6, [], [], []⟩
      [("g1", ⟨"r1", "p1", "u1", false, 3, "url1"⟩)])
      [("g2", ⟨"r1", "p1", "u1", false, 3, "url1"⟩)]).aborted ∧
    6 ∈ (fire_alert (fire_alert
      ⟨[], [(⟨"r1", "p1", "u1", false, 3, "url1"⟩, 5)],
       [(5, ⟨"r1", "p1", "u1", false, 3, "url1"⟩)], 6, [], [], []⟩
      [("g1", ⟨"r1", "p1", "u1", false, 3, "url1"⟩)])
      [("g2", ⟨"r1", "p1", "u1", false, 3, "url1"⟩)]).aborted ∧
    hLookup (fire_alert (fire_alert
      ⟨[], [(⟨"r1", "p1", "u1", false, 3, "url1"⟩, 5)],
       [(5, ⟨"r1", "p1", "u1", false, 3, "url1"⟩)], 6, [], [], []⟩
      [("g1", ⟨"r1", "p1", "u1", false, 3, "url1"⟩)])
      [("g2", ⟨"r1", "p1", "u1", false, 3, "url1"⟩)]).handles
      ⟨"r1", "p1", "u1", false, 3, "url1"⟩ = some 7 ∧
    countId (fire_alert (fire_alert
      ⟨[], [(⟨"r1", "p1", "u1", false, 3, "url1"⟩, 5)],
       [(5, ⟨"r1", "p1", "u1", false, 3, "url1"⟩)], 6, [], [], []⟩
      [("g1", ⟨"r1", "p1", "u1", false, 3, "url1"⟩)])
      [("g2", ⟨"r1", "p1", "u1", false, 3, "url1"⟩)]).handles
      ⟨"r1", "p1", "u1", false, 3, "url1"⟩ = 1 ∧
    pendingFor (fire_alert (fire_alert
      ⟨[], [(⟨"r1", "p1", "u1", false, 3, "url1"⟩, 5)],
       [(5, ⟨"r1", "p1", "u1", false, 3, "url1"⟩)], 6, [], [], []⟩
      [("g1", ⟨"r1", "p1", "u1", false, 3, "url1"⟩)])
      [("g2", ⟨"r1", "p1", "u1", false, 3, "url1"⟩)])
      ⟨"r1", "p1", "u1", false, 3, "url1"⟩ = [7] :=
  fire_alert_debounce
    ⟨[], [(⟨"r1", "p1", "u1", false, 3, "url1"⟩, 5)],
     [(5, ⟨"r1", "p1", "u1", false, 3, "url1"⟩)], 6, [], [], []⟩
    "g1" "g2" ⟨"r1", "p1", "u1", false, 3, "url1"⟩ 5
    (by decide) (by decide) (by decide) (by decide) (by decide) (by decide)

/-! ## Scenario D (C7) -/

/-- C7 counterexample: one alert `{g1, p1, u1, notified := false}`,
reconciled against `g1` waiting on `p1`, fires after the delay; the
callback is invoked exactly once, but the alert value passed to it is
the clone pushed onto the fire list before the `notified := true`
update — its `notified` is `false`, not `true` as claimed. -/
theorem fired_alert_notified_false_cex :
    ((taskExpire (update_alerts
        ⟨[("g1", [⟨"r1", "p1", "u1", false, 5, "url1"⟩])], [], [], 0, [], [], []⟩
        [("g1", ⟨["p1"]⟩)]) 0).fired.map Alert.notified) = [false] ∧
    (taskExpire (update_alerts
        ⟨[("g1", [⟨"r1", "p1", "u1", false, 5, "url1"⟩])], [], [], 0, [], [], []⟩
        [("g1", ⟨["p1"]⟩)]) 0).fired.length = 1 := by
  decide

/-- C7 as amended: starting from a registry holding a single alert with
`notified = false` whose player the observed game waits on, one
reconciliation (`update_alerts`) followed by the uncancelled expiry of
the spawned task invokes `onFire` exactly once; the alert value passed
to `onFire` is the registered alert itself, still carrying
`notified = false` (the clone was taken before the update), while the
registry's stored copy of the alert has `notified = true`. -/
theorem update_alerts_fires_once_prenotify (g : String) (game : Game)
    (a : Alert) (h1 : a.notified = false)
    (h2 : a.player_id ∈ game.waited_players) :
    (taskExpire (update_alerts ⟨[(g, [a])], [], [], 0, [], [], []⟩
      [(g, game)]) 0).fired = [a] ∧
    regLookup (taskExpire (update_alerts ⟨[(g, [a])], [], [], 0, [], [], []⟩
      [(g, game)]) 0).alerts_map g = some [{ a with notified := true }] := by
  have heval : evalAlerts game.waited_players [a] [] [] =
      ⟨[a], [(a, true)], [], []⟩ := by
    rw [evalAlerts, if_pos ⟨h2, h1⟩]
    rfl
  have happly : applyUpdates [a] [(a, true)] = [{ a with notified := true }] := by
    rw [applyUpdates]
    rw [show removeAlert [a] a = [] by simp [removeAlert, alertEq_refl]]
    rw [show insertAlert [] { a with notified := true } =
      [{ a with notified := true }] by simp [insertAlert, memAlert]]
    rfl
  have hclean : clean_alerts (⟨[(g, [a])], [], [], 0, [], [], []⟩ : Controller)
      [(g, game)] = ⟨[(g, [a])], [], [], 0, [], [], []⟩ := by
    rw [clean_alerts]
    rw [show cleanGo [(g, game)] [(g, [a])] [] [] = ([(g, [a])], [], []) by
      rw [cleanGo, if_pos (by simp [gmLookup])]
      rfl]
  have hgatf : get_alerts_to_fire (⟨[(g, [a])], [], [], 0, [], [], []⟩ : Controller)
      [(g, game)] =
      (⟨[(g, [{ a with notified := true }])], [], [], 0, [], [], []⟩, [(g, a)]) := by
    rw [get_alerts_to_fire, gatfGo]
    rw [show regLookup [(g, [a])] g = some [a] by simp [regLookup]]
    simp only [heval, happly]
    rw [show regUpdate [(g, [a])] g (fun _ => [{ a with notified := true }]) =
      [(g, [{ a with notified := true }])] by simp [regUpdate]]
    rfl
  rw [update_alerts, hclean, hgatf]
  rw [show fire_alert (⟨[(g, [{ a with notified := true }])], [], [], 0, [], [], []⟩ :
      Controller) [(g, a)] =
      ⟨[(g, [{ a with notified := true }])], [(a, 0)], [(0, a)], 1, [], [], []⟩ by
    rw [fire_alert]
    rfl]
  rw [show taskExpire (⟨[(g, [{ a with notified := true }])], [(a, 0)], [(0, a)],
      1, [], [], []⟩ : Controller) 0 =
      ⟨[(g, [{ a with notified := true }])], [(a, 0)], [(0, a)], 1, [], [0], [a]⟩ by
    rw [taskExpire]
    simp [tLookup]]
  exact ⟨rfl, by simp [regLookup]⟩

/-- Witness for `update_alerts_fires_once_prenotify` at a concrete
alert and game. -/
theorem update_alerts_fires_once_prenotify_witness :
    (taskExpire (update_alerts
      ⟨[("g1", [⟨"r1", "p1", "u1", false, 5, "url1"⟩])], [], [], 0, [], [], []⟩
      [("g1", ⟨["p1", "p2"]⟩)]) 0).fired = [⟨"r1", "p1", "u1", false, 5, "url1"⟩] ∧
    regLookup (taskExpire (update_alerts
      ⟨[("g1", [⟨"r1", "p1", "u1", false, 5, "url1"⟩])], [], [], 0, [], [], []⟩
      [("g1", ⟨["p1", "p2"]⟩)]) 0).alerts_map "g1" =
      some [⟨"r1", "p1", "u1", true, 5, "url1"⟩] :=
  update_alerts_fires_once_prenotify "g1" ⟨["p1", "p2"]⟩
    ⟨"r1", "p1", "u1", false, 5, "url1"⟩ (by decide) (by decide)

/-! ## Reconciliation (C3): `evalAlerts` unfolding lemmas -/

theorem evalAlerts_cons_fire (waited : List String) (a : Alert) (t : AlertSet)
    (hs : Handles) (ab : List Nat)
    (h : a.player_id ∈ waited ∧ a.notified = false) :
    evalAlerts waited (a :: t) hs ab =
      ⟨a :: (evalAlerts waited t hs ab).fires,
       (a, true) :: (evalAlerts waited t hs ab).updates,
       (evalAlerts waited t hs ab).handles,
       (evalAlerts waited t hs ab).aborted⟩ := by
  rw [evalAlerts, if_pos h]

theorem evalAlerts_cons_reset_some (waited : List String) (a : Alert)
    (t : AlertSet) (hs : Handles) (ab : List Nat) {id : Nat}
    (h : a.player_id ∉ waited ∧ a.notified = true)
    (hl : hLookup hs a = some id) :
    evalAlerts waited (a :: t) hs ab =
      ⟨(evalAlerts waited t (hRemove hs a) (id :: ab)).fires,
       (a, false) :: (evalAlerts waited t (hRemove hs a) (id :: ab)).updates,
       (evalAlerts waited t (hRemove hs a) (id :: ab)).handles,
       (evalAlerts waited t (hRemove hs a) (id :: ab)).aborted⟩ := by
  have hn1 : ¬(a.player_id ∈ waited ∧ a.notified = false) := by
    rintro ⟨-, hc⟩
    rw [hc] at h
    exact absurd h.2 (by simp)
  rw [evalAlerts, if_neg hn1, if_pos h, hl]

theorem evalAlerts_cons_reset_none (waited : List String) (a : Alert)
    (t : AlertSet) (hs : Handles) (ab : List Nat)
    (h : a.player_id ∉ waited ∧ a.notified = true)
    (hl : hLookup hs a = none) :
    evalAlerts waited (a :: t) hs ab =
      ⟨(evalAlerts waited t hs ab).fires,
       (a, false) :: (evalAlerts waited t hs ab).updates,
       (evalAlerts waited t hs ab).handles,
       (evalAlerts waited t hs ab).aborted⟩ := by
  have hn1 : ¬(a.player_id ∈ waited ∧ a.notified = false) := by
    rintro ⟨-, hc⟩
    rw [hc] at h
    exact absurd h.2 (by simp)
  rw [evalAlerts, if_neg hn1, if_pos h, hl]

theorem evalAlerts_cons_skip (waited : List String) (a : Alert) (t : AlertSet)
    (hs : Handles) (ab : List Nat)
    (h1 : ¬(a.player_id ∈ waited ∧ a.notified = false))
    (h2 : ¬(a.player_id ∉ waited ∧ a.notified = true)) :
    evalAlerts waited (a :: t) hs ab = evalAlerts waited t hs ab := by
  rw [evalAlerts, if_neg h1, if_neg h2]

/-! ## `evalAlerts` monotonicity lemmas -/

theorem evalAlerts_rev (waited : List String) (alerts : AlertSet)
    (hs : Handles) (ab : List Nat) {b : Alert} {id : Nat}
    (h : hLookup (evalAlerts waited alerts hs ab).handles b = some id) :
    hLookup hs b = some id := by
  induction alerts generalizing hs ab with
  | nil => exact h
  | cons a t ih =>
      by_cases h1 : a.player_id ∈ waited ∧ a.notified = false
      · rw [evalAlerts_cons_fire waited a t hs ab h1] at h
        exact ih hs ab h
      · by_cases h2 : a.player_id ∉ waited ∧ a.notified = true
        · cases hl : hLookup hs a with
          | some j =>
              rw [evalAlerts_cons_reset_some waited a t hs ab h2 hl] at h
              exact hLookup_hRemove_rev (ih _ _ h)
          | none =>
              rw [evalAlerts_cons_reset_none waited a t hs ab h2 hl] at h
              exact ih hs ab h
        · rw [evalAlerts_cons_skip waited a t hs ab h1 h2] at h
          exact ih hs ab h

theorem evalAlerts_handle_none (waited : List String) (alerts : AlertSet)
    (hs : Handles) (ab : List Nat) {b : Alert}
    (h : hLookup hs b = none) :
    hLookup (evalAlerts waited alerts hs ab).handles b = none := by
  cases hout : hLookup (evalAlerts waited alerts hs ab).handles b with
  | none => rfl
  | some id =>
      rw [evalAlerts_rev waited alerts hs ab hout] at h
      exact h.symm ▸ rfl

theorem evalAlerts_ab_mono (waited : List String) (alerts : AlertSet)
    (hs : Handles) (ab : List Nat) {x : Nat} (h : x ∈ ab) :
    x ∈ (evalAlerts waited alerts hs ab).aborted := by
  induction alerts generalizing hs ab with
  | nil => exact h
  | cons a t ih =>
      by_cases h1 : a.player_id ∈ waited ∧ a.notified = false
      · rw [evalAlerts_cons_fire waited a t hs ab h1]
        exact ih hs ab h
      · by_cases h2 : a.player_id ∉ waited ∧ a.notified = true
        · cases hl : hLookup hs a with
          | some j =>
              rw [evalAlerts_cons_reset_some waited a t hs ab h2 hl]
              exact ih _ _ (List.mem_cons_of_mem j h)
          | none =>
              rw [evalAlerts_cons_reset_none waited a t hs ab h2 hl]
              exact ih hs ab h
        · rw [evalAlerts_cons_skip waited a t hs ab h1 h2]
          exact ih hs ab h

theorem evalAlerts_some_or (waited : List String) (alerts : AlertSet)
    (hs : Handles) (ab : List Nat) {b : Alert} {id : Nat}
    (h : hLookup hs b = some id) :
    hLookup (evalAlerts waited alerts hs ab).handles b = some id ∨
      id ∈ (evalAlerts waited alerts hs ab).aborted := by
  induction alerts generalizing hs ab with
  | nil => exact Or.inl h
  | cons a t ih =>
      by_cases h1 : a.player_id ∈ waited ∧ a.notified = false
      · rw [evalAlerts_cons_fire waited a t hs ab h1]
        exact ih hs ab h
      · by_cases h2 : a.player_id ∉ waited ∧ a.notified = true
        · cases hl : hLookup hs a with
          | some j =>
              rw [evalAlerts_cons_reset_some waited a t hs ab h2 hl]
              cases hba : alertEq b a with
              | true =>
                  right
                  have heq : hLookup hs b = hLookup hs a := hLookup_congr hs hba
                  rw [h, hl] at heq
                  injection heq with hij
                  subst hij
                  exact evalAlerts_ab_mono waited t _ _ (List.mem_cons_self _ _)
              | false =>
                  exact ih _ _ ((hLookup_hRemove_of_ne hs hba).trans h)
          | none =>
              rw [evalAlerts_cons_reset_none waited a t hs ab h2 hl]
              exact ih hs ab h
        · rw [evalAlerts_cons_skip waited a t hs ab h1 h2]
          exact ih hs ab h

/-! ## `evalAlerts` membership lemmas -/

theorem evalAlerts_fire_mem (waited : List String) (alerts : AlertSet)
    (hs : Handles) (ab : List Nat) {a : Alert} (ha : a ∈ alerts)
    (h : a.player_id ∈ waited ∧ a.notified = false) :
    a ∈ (evalAlerts waited alerts hs ab).fires ∧
      (a, true) ∈ (evalAlerts waited alerts hs ab).updates := by
  induction alerts generalizing hs ab with
  | nil => exact absurd ha (List.not_mem_nil a)
  | cons x t ih =>
      rcases List.mem_cons.mp ha with rfl | hat
      · rw [evalAlerts_cons_fire waited a t hs ab h]
        exact ⟨List.mem_cons_self _ _, List.mem_cons_self _ _⟩
      · by_cases h1 : x.player_id ∈ waited ∧ x.notified = false
        · rw [evalAlerts_cons_fire waited x t hs ab h1]
          obtain ⟨m1, m2⟩ := ih hs ab hat
          exact ⟨List.mem_cons_of_mem x m1, List.mem_cons_of_mem (x, true) m2⟩
        · by_cases h2 : x.player_id ∉ waited ∧ x.notified = true
          · cases hl : hLookup hs x with
            | some j =>
                rw [evalAlerts_cons_reset_some waited x t hs ab h2 hl]
                obtain ⟨m1, m2⟩ := ih _ _ hat
                exact ⟨m1, List.mem_cons_of_mem (x, false) m2⟩
            | none =>
                rw [evalAlerts_cons_reset_none waited x t hs ab h2 hl]
                obtain ⟨m1, m2⟩ := ih hs ab hat
                exact ⟨m1, List.mem_cons_of_mem (x, false) m2⟩
          · rw [evalAlerts_cons_skip waited x t hs ab h1 h2]
            exact ih hs ab hat

theorem evalAlerts_reset_mem (waited : List String) (alerts : AlertSet)
    (hs : Handles) (ab : List Nat) {a : Alert} (hnd : IdNodup alerts)
    (ha : a ∈ alerts) (h : a.player_id ∉ waited ∧ a.notified = true) :
    (a, false) ∈ (evalAlerts waited alerts hs ab).updates ∧
    hLookup (evalAlerts waited alerts hs ab).handles a = none ∧
    ∀ id, hLookup hs a = some id →
      id ∈ (evalAlerts waited alerts hs ab).aborted := by
  induction alerts generalizing hs ab with
  | nil => exact absurd ha (List.not_mem_nil a)
  | cons x t ih =>
      replace hnd := List.pairwise_cons.mp hnd
      rcases List.mem_cons.mp ha with rfl | hat
      · cases hl : hLookup hs a with
        | some j =>
            rw [evalAlerts_cons_reset_some waited a t hs ab h hl]
            refine ⟨List.mem_cons_self _ _, ?_, ?_⟩
            · exact evalAlerts_handle_none waited t _ _
                (hLookup_hRemove_of_eq hs (alertEq_refl a))
            · intro id hid
              injection hid with hij
              subst hij
              exact evalAlerts_ab_mono waited t _ _ (List.mem_cons_self _ _)
        | none =>
            rw [evalAlerts_cons_reset_none waited a t hs ab h hl]
            refine ⟨List.mem_cons_self _ _,
              evalAlerts_handle_none waited t hs _ hl, ?_⟩
            intro id hid
            exact absurd hid (by simp)
      · have hxa : alertEq x a = false := hnd.1 a hat
        by_cases h1 : x.player_id ∈ waited ∧ x.notified = false
        · rw [evalAlerts_cons_fire waited x t hs ab h1]
          obtain ⟨m1, m2, m3⟩ := ih hs ab hnd.2 hat
          exact ⟨List.mem_cons_of_mem (x, true) m1, m2, m3⟩
        · by_cases h2 : x.player_id ∉ waited ∧ x.notified = true
          · cases hl : hLookup hs x with
            | some j =>
                rw [evalAlerts_cons_reset_some waited x t hs ab h2 hl]
                obtain ⟨m1, m2, m3⟩ := ih (hRemove hs x) (j :: ab) hnd.2 hat
                have haxf : alertEq a x = false := (alertEq_symm a x).trans hxa
                refine ⟨List.mem_cons_of_mem (x, false) m1, m2, ?_⟩
                intro id hid
                exact m3 id ((hLookup_hRemove_of_ne hs haxf).trans hid)
            | none =>
                rw [evalAlerts_cons_reset_none waited x t hs ab h2 hl]
                obtain ⟨m1, m2, m3⟩ := ih hs ab hnd.2 hat
                exact ⟨List.mem_cons_of_mem (x, false) m1, m2, m3⟩
          · rw [evalAlerts_cons_skip waited x t hs ab h1 h2]
            exact ih hs ab hnd.2 hat

theorem evalAlerts_updates_spec (waited : List String) (alerts : AlertSet)
    (hs : Handles) (ab : List Nat) {u : Alert × Bool}
    (hu : u ∈ (evalAlerts waited alerts hs ab).updates) :
    u.1 ∈ alerts ∧
      ((u.1.player_id ∈ waited ∧ u.1.notified = false ∧ u.2 = true) ∨
       (u.1.player_id ∉ waited ∧ u.1.notified = true ∧ u.2 = false)) := by
  induction alerts generalizing hs ab with
  | nil => exact absurd hu (List.not_mem_nil u)
  | cons x t ih =>
      by_cases h1 : x.player_id ∈ waited ∧ x.notified = false
      · rw [evalAlerts_cons_fire waited x t hs ab h1] at hu
        rcases List.mem_cons.mp hu with rfl | hut
        · exact ⟨List.mem_cons_self _ _, Or.inl ⟨h1.1, h1.2, rfl⟩⟩
        · obtain ⟨m1, m2⟩ := ih hs ab hut
          exact ⟨List.mem_cons_of_mem x m1, m2⟩
      · by_cases h2 : x.player_id ∉ waited ∧ x.notified = true
        · cases hl : hLookup hs x with
          | some j =>
              rw [evalAlerts_cons_reset_some waited x t hs ab h2 hl] at hu
              rcases List.mem_cons.mp hu with rfl | hut
              · exact ⟨List.mem_cons_self _ _, Or.inr ⟨h2.1, h2.2, rfl⟩⟩
              · obtain ⟨m1, m2⟩ := ih _ _ hut
                exact ⟨List.mem_cons_of_mem x m1, m2⟩
          | none =>
              rw [evalAlerts_cons_reset_none waited x t hs ab h2 hl] at hu
              rcases List.mem_cons.mp hu with rfl | hut
              · exact ⟨List.mem_cons_self _ _, Or.inr ⟨h2.1, h2.2, rfl⟩⟩
              · obtain ⟨m1, m2⟩ := ih hs ab hut
                exact ⟨List.mem_cons_of_mem x m1, m2⟩
        · rw [evalAlerts_cons_skip waited x t hs ab h1 h2] at hu
          obtain ⟨m1, m2⟩ := ih hs ab hu
          exact ⟨List.mem_cons_of_mem x m1, m2⟩

theorem evalAlerts_updates_keys_sublist (waited : List String)
    (alerts : AlertSet) (hs : Handles) (ab : List Nat) :
    ((evalAlerts waited alerts hs ab).updates.map Prod.fst).Sublist alerts := by
  induction alerts generalizing hs ab with
  | nil => simp [evalAlerts]
  | cons x t ih =>
      by_cases h1 : x.player_id ∈ waited ∧ x.notified = false
      · rw [evalAlerts_cons_fire waited x t hs ab h1]
        exact List.Sublist.cons₂ x (ih hs ab)
      · by_cases h2 : x.player_id ∉ waited ∧ x.notified = true
        · cases hl : hLookup hs x with
          | some j =>
              rw [evalAlerts_cons_reset_some waited x t hs ab h2 hl]
              exact List.Sublist.cons₂ x (ih _ _)
          | none =>
              rw [evalAlerts_cons_reset_none waited x t hs ab h2 hl]
              exact List.Sublist.cons₂ x (ih hs ab)
        · rw [evalAlerts_cons_skip waited x t hs ab h1 h2]
          exact List.Sublist.cons x (ih hs ab)

/-! ## `applyUpdates` lemmas -/

theorem applyUpdates_preserve (ups : List (Alert × Bool)) (S : AlertSet)
    {e : Alert} (he : e ∈ S) (h : ∀ u ∈ ups, alertEq u.1 e = false) :
    e ∈ applyUpdates S ups := by
  induction ups generalizing S with
  | nil => exact he
  | cons u t ih =>
      obtain ⟨b, m⟩ := u
      rw [applyUpdates]
      have hbe : alertEq b e = false := h (b, m) (List.mem_cons_self _ _)
      have heb : alertEq e b = false := (alertEq_symm e b).trans hbe
      exact ih _ (mem_insertAlert_of_mem _ (mem_removeAlert_of_mem he heb))
        (fun u hu => h u (List.mem_cons_of_mem _ hu))

theorem applyUpdates_insert (ups : List (Alert × Bool)) (S : AlertSet)
    {a : Alert} {n : Bool} (ha : (a, n) ∈ ups)
    (hnd : (ups.map Prod.fst).Pairwise (fun x y => alertEq x y = false)) :
    { a with notified := n } ∈ applyUpdates S ups := by
  induction ups generalizing S with
  | nil => exact absurd ha (List.not_mem_nil _)
  | cons u t ih =>
      obtain ⟨b, m⟩ := u
      rw [List.map_cons, List.pairwise_cons] at hnd
      rw [applyUpdates]
      rcases List.mem_cons.mp ha with heq | hat
      · rw [Prod.mk.injEq] at heq
        obtain ⟨rfl, rfl⟩ := heq
        apply applyUpdates_preserve
        · have hmem : memAlert (removeAlert S a) { a with notified := n } = false :=
            memAlert_removeAlert_self
              ((alertEq_set_notified_left a a n).trans (alertEq_refl a))
          rw [insertAlert_of_not_memAlert hmem]
          exact List.mem_append_right _ (List.mem_cons_self _ _)
        · intro u hu
          have h1 : alertEq a u.1 = false :=
            hnd.1 u.1 (List.mem_map_of_mem Prod.fst hu)
          rw [alertEq_set_notified_right]
          exact (alertEq_symm u.1 a).trans h1
      · exact ih _ hat hnd.2

theorem IdNodup_eq_of_alertEq {S : AlertSet} (hnd : IdNodup S) {x y : Alert}
    (hx : x ∈ S) (hy : y ∈ S) (hxy : alertEq x y = true) : x = y := by
  by_contra hne
  have hsymm : Symmetric (fun x y : Alert => alertEq x y = false) :=
    fun a b hab => (alertEq_symm b a).trans hab
  rw [hnd.forall hsymm hx hy hne] at hxy
  exact absurd hxy (by simp)

/-! ## `gatfGo` unfolding and monotonicity lemmas -/

theorem stepGame_handles (c : Controller) (k : String) (gk : Game)
    (alerts : AlertSet) : (stepGame c k gk alerts).handles =
    (evalAlerts gk.waited_players alerts c.handles c.aborted).handles := rfl

theorem stepGame_aborted (c : Controller) (k : String) (gk : Game)
    (alerts : AlertSet) : (stepGame c k gk alerts).aborted =
    (evalAlerts gk.waited_players alerts c.handles c.aborted).aborted := rfl

theorem stepGame_alerts_map (c : Controller) (k : String) (gk : Game)
    (alerts : AlertSet) : (stepGame c k gk alerts).alerts_map =
    regUpdate c.alerts_map k (fun _ => applyUpdates alerts
      (evalAlerts gk.waited_players alerts c.handles c.aborted).updates) := rfl

theorem gatfGo_cons_none (c : Controller) (k : String) (gk : Game)
    (rest : GamesMap) (h : regLookup c.alerts_map k = none) :
    gatfGo c ((k, gk) :: rest) = gatfGo c rest := by
  rw [gatfGo, h]

theorem gatfGo_cons_some (c : Controller) (k : String) (gk : Game)
    (rest : GamesMap) {alerts : AlertSet}
    (h : regLookup c.alerts_map k = some alerts) :
    gatfGo c ((k, gk) :: rest) =
      ((gatfGo (stepGame c k gk alerts) rest).1,
       (evalAlerts gk.waited_players alerts c.handles c.aborted).fires.map
         (fun a => (k, a)) ++ (gatfGo (stepGame c k gk alerts) rest).2) := by
  rw [gatfGo, h]
  rfl

theorem gatfGo_rev (gm : GamesMap) (c : Controller) {b : Alert} {id : Nat}
    (h : hLookup (gatfGo c gm).1.handles b = some id) :
    hLookup c.handles b = some id := by
  induction gm generalizing c with
  | nil => exact h
  | cons e rest ih =>
      obtain ⟨k, gk⟩ := e
      cases hreg : regLookup c.alerts_map k with
      | none =>
          rw [gatfGo_cons_none c k gk rest hreg] at h
          exact ih c h
      | some alerts =>
          rw [gatfGo_cons_some c k gk rest hreg] at h
          have h2 := ih (stepGame c k gk alerts) h
          rw [stepGame_handles] at h2
          exact evalAlerts_rev _ _ _ _ h2

theorem gatfGo_handle_none (gm : GamesMap) (c : Controller) {b : Alert}
    (h : hLookup c.handles b = none) :
    hLookup (gatfGo c gm).1.handles b = none := by
  cases hout : hLookup (gatfGo c gm).1.handles b with
  | none => rfl
  | some id => rw [gatfGo_rev gm c hout] at h; exact h.symm ▸ rfl

theorem gatfGo_ab_mono (gm : GamesMap) (c : Controller) {x : Nat}
    (h : x ∈ c.aborted) : x ∈ (gatfGo c gm).1.aborted := by
  induction gm generalizing c with
  | nil => exact h
  | cons e rest ih =>
      obtain ⟨k, gk⟩ := e
      cases hreg : regLookup c.alerts_map k with
      | none =>
          rw [gatfGo_cons_none c k gk rest hreg]
          exact ih c h
      | some alerts =>
          rw [gatfGo_cons_some c k gk rest hreg]
          refine ih (stepGame c k gk alerts) ?_
          rw [stepGame_aborted]
          exact evalAlerts_ab_mono _ _ _ _ h

theorem gatfGo_reg_preserve (gm : GamesMap) (c : Controller) {G : String}
    (h : G ∉ gm.map Prod.fst) :
    regLookup (gatfGo c gm).1.alerts_map G = regLookup c.alerts_map G := by
  induction gm generalizing c with
  | nil => rfl
  | cons e rest ih =>
      obtain ⟨k, gk⟩ := e
      simp only [List.map_cons, List.mem_cons, not_or] at h
      cases hreg : regLookup c.alerts_map k with
      | none =>
          rw [gatfGo_cons_none c k gk rest hreg]
          exact ih c h.2
      | some alerts =>
          rw [gatfGo_cons_some c k gk rest hreg]
          rw [ih (stepGame c k gk alerts) h.2, stepGame_alerts_map]
          exact regLookup_regUpdate_ne c.alerts_map _ (fun hk => h.1 hk.symm)

/-! ## The reconciliation claim (C3) -/

theorem gatfGo_reconcile (gm : GamesMap) :
    ∀ (c : Controller) (gid : String) (game : Game) (S : AlertSet) (a : Alert),
      (gm.map Prod.fst).Nodup → (gid, game) ∈ gm →
      regLookup c.alerts_map gid = some S → IdNodup S → a ∈ S →
      (a.player_id ∈ game.waited_players ∧ a.notified = false →
         (gid, a) ∈ (gatfGo c gm).2 ∧
         ∃ S', regLookup (gatfGo c gm).1.alerts_map gid = some S' ∧
           { a with notified := true } ∈ S') ∧
      (a.player_id ∉ game.waited_players ∧ a.notified = true →
         (∃ S', regLookup (gatfGo c gm).1.alerts_map gid = some S' ∧
           { a with notified := false } ∈ S') ∧
         hLookup (gatfGo c gm).1.handles a = none ∧
         ∀ id, hLookup c.handles a = some id → id ∈ (gatfGo c gm).1.aborted) ∧
      (¬(a.player_id ∈ game.waited_players ∧ a.notified = false) →
       ¬(a.player_id ∉ game.waited_players ∧ a.notified = true) →
         ∃ S', regLookup (gatfGo c gm).1.alerts_map gid = some S' ∧ a ∈ S') := by
  induction gm with
  | nil =>
      intro c gid game S a _ hgm _ _ _
      exact absurd hgm (List.not_mem_nil _)
  | cons e rest ih =>
      obtain ⟨k, gk⟩ := e
      intro c gid game S a hkeys hgm hS hnd ha
      rw [List.map_cons, List.nodup_cons] at hkeys
      rcases List.mem_cons.mp hgm with heq | hrest
      · rw [Prod.mk.injEq] at heq
        obtain ⟨rfl, rfl⟩ := heq
        rw [gatfGo_cons_some c gid game rest hS]
        dsimp only
        have hS' : regLookup (stepGame c gid game S).alerts_map gid =
            some (applyUpdates S
              (evalAlerts game.waited_players S c.handles c.aborted).updates) := by
          rw [stepGame_alerts_map, regLookup_regUpdate_self, hS]
          rfl
        have hreg_final :
            regLookup (gatfGo (stepGame c gid game S) rest).1.alerts_map gid =
            some (applyUpdates S
              (evalAlerts game.waited_players S c.handles c.aborted).updates) := by
          rw [gatfGo_reg_preserve rest _ hkeys.1, hS']
        have hpw : ((evalAlerts game.waited_players S c.handles
            c.aborted).updates.map Prod.fst).Pairwise
            (fun x y => alertEq x y = false) :=
          List.Pairwise.sublist
            (evalAlerts_updates_keys_sublist game.waited_players S
              c.handles c.aborted) hnd
        refine ⟨?_, ?_, ?_⟩
        · intro hcond
          obtain ⟨hf, hu⟩ := evalAlerts_fire_mem game.waited_players S
            c.handles c.aborted ha hcond
          exact ⟨List.mem_append_left _ (List.mem_map_of_mem _ hf),
            _, hreg_final, applyUpdates_insert _ _ hu hpw⟩
        · intro hcond
          obtain ⟨hu, hhn, habort⟩ := evalAlerts_reset_mem game.waited_players S
            c.handles c.aborted hnd ha hcond
          refine ⟨⟨_, hreg_final, applyUpdates_insert _ _ hu hpw⟩, ?_, ?_⟩
          · apply gatfGo_handle_none
            rw [stepGame_handles]
            exact hhn
          · intro id hid
            rcases evalAlerts_some_or game.waited_players S c.handles
              c.aborted hid with hsome | hab
            · rw [hhn] at hsome
              exact absurd hsome (by simp)
            · apply gatfGo_ab_mono
              rw [stepGame_aborted]
              exact hab
        · intro hn1 hn2
          have hfree : ∀ u ∈ (evalAlerts game.waited_players S c.handles
              c.aborted).updates, alertEq u.1 a = false := by
            intro u hu
            obtain ⟨humem, hcase⟩ := evalAlerts_updates_spec game.waited_players
              S c.handles c.aborted hu
            cases hcc : alertEq u.1 a with
            | false => rfl
            | true =>
                have hua : u.1 = a := IdNodup_eq_of_alertEq hnd humem ha hcc
                rcases hcase with ⟨hx1, hx2, -⟩ | ⟨hx1, hx2, -⟩
                · exact absurd ⟨hua ▸ hx1, hua ▸ hx2⟩ hn1
                · exact absurd ⟨hua ▸ hx1, hua ▸ hx2⟩ hn2
          exact ⟨_, hreg_final, applyUpdates_preserve _ _ ha hfree⟩
      · have hkgid : k ≠ gid := by
          intro hkg
          subst hkg
          exact hkeys.1 (List.mem_map.mpr ⟨(k, game), hrest, rfl⟩)
        cases hreg : regLookup c.alerts_map k with
        | none =>
            rw [gatfGo_cons_none c k gk rest hreg]
            exact ih c gid game S a hkeys.2 hrest hS hnd ha
        | some alerts =>
            rw [gatfGo_cons_some c k gk rest hreg]
            dsimp only
            have hS2 : regLookup (stepGame c k gk alerts).alerts_map gid =
                some S := by
              rw [stepGame_alerts_map, regLookup_regUpdate_ne _ _ hkgid, hS]
            have IH := ih (stepGame c k gk alerts) gid game S a hkeys.2 hrest
              hS2 hnd ha
            refine ⟨?_, ?_, ?_⟩
            · intro hcond
              obtain ⟨hfmem, hS'⟩ := IH.1 hcond
              exact ⟨List.mem_append_right _ hfmem, hS'⟩
            · intro hcond
              obtain ⟨hS', hhn, habort⟩ := IH.2.1 hcond
              refine ⟨hS', hhn, ?_⟩
              intro id hid
              rcases evalAlerts_some_or gk.waited_players alerts c.handles
                c.aborted hid with hsome | hab
              · exact habort id ((stepGame_handles c k gk alerts).symm ▸ hsome)
              · apply gatfGo_ab_mono
                rw [stepGame_aborted]
                exact hab
            · intro hn1 hn2
              exact IH.2.2 hn1 hn2

/-- C3: for every `get_alerts_to_fire` reconciliation over a games map
with distinct keys, and every alert `a` registered (under the set
invariant) for a game `(gid, game)` of that map: if `a`'s player is
waited on and `a` is not yet notified, then `(gid, a)` is in the
returned fire list and the registry afterwards stores `a` with
`notified = true`; if `a`'s player is not waited on and `a` is
notified, then the registry afterwards stores `a` with
`notified = false`, the task table no longer holds a handle for `a`'s
identity, and any handle it held at the start has been aborted;
otherwise `a` is stored unchanged. -/
theorem get_alerts_to_fire_reconcile (gm : GamesMap) (c : Controller)
    (gid : String) (game : Game) (S : AlertSet) (a : Alert)
    (hkeys : (gm.map Prod.fst).Nodup) (hgm : (gid, game) ∈ gm)
    (hS : regLookup c.alerts_map gid = some S) (hnd : IdNodup S)
    (ha : a ∈ S) :
    (a.player_id ∈ game.waited_players ∧ a.notified = false →
       (gid, a) ∈ (get_alerts_to_fire c gm).2 ∧
       ∃ S', regLookup (get_alerts_to_fire c gm).1.alerts_map gid = some S' ∧
         { a with notified := true } ∈ S') ∧
    (a.player_id ∉ game.waited_players ∧ a.notified = true →
       (∃ S', regLookup (get_alerts_to_fire c gm).1.alerts_map gid = some S' ∧
         { a with notified := false } ∈ S') ∧
       hLookup (get_alerts_to_fire c gm).1.handles a = none ∧
       ∀ id, hLookup c.handles a = some id →
         id ∈ (get_alerts_to_fire c gm).1.aborted) ∧
    (¬(a.player_id ∈ game.waited_players ∧ a.notified = false) →
     ¬(a.player_id ∉ game.waited_players ∧ a.notified = true) →
       ∃ S', regLookup (get_alerts_to_fire c gm).1.alerts_map gid = some S' ∧
         a ∈ S') :=
  gatfGo_reconcile gm c gid game S a hkeys hgm hS hnd ha

/-- Witness for `get_alerts_to_fire_reconcile` at a one-game, one-alert
configuration whose alert is due to fire. -/
theorem get_alerts_to_fire_reconcile_witness :
    ((⟨"r1", "p1", "u1", false, 5, "url1"⟩ : Alert).player_id ∈
        (⟨["p1"]⟩ : Game).waited_players ∧
      (⟨"r1", "p1", "u1", false, 5, "url1"⟩ : Alert).notified = false →
       ("g1", (⟨"r1", "p1", "u1", false, 5, "url1"⟩ : Alert)) ∈
         (get_alerts_to_fire
           ⟨[("g1", [⟨"r1", "p1", "u1", false, 5, "url1"⟩])], [], [], 0, [], [], []⟩
           [("g1", ⟨["p1"]⟩)]).2 ∧
       ∃ S', regLookup (get_alerts_to_fire
           ⟨[("g1", [⟨"r1", "p1", "u1", false, 5, "url1"⟩])], [], [], 0, [], [], []⟩
           [("g1", ⟨["p1"]⟩)]).1.alerts_map "g1" = some S' ∧
         ({ (⟨"r1", "p1", "u1", false, 5, "url1"⟩ : Alert) with
             notified := true } : Alert) ∈ S') ∧
    ((⟨"r1", "p1", "u1", false, 5, "url1"⟩ : Alert).player_id ∉
        (⟨["p1"]⟩ : Game).waited_players ∧
      (⟨"r1", "p1", "u1", false, 5, "url1"⟩ : Alert).notified = true →
       (∃ S', regLookup (get_alerts_to_fire
           ⟨[("g1", [⟨"r1", "p1", "u1", false, 5, "url1"⟩])], [], [], 0, [], [], []⟩
           [("g1", ⟨["p1"]⟩)]).1.alerts_map "g1" = some S' ∧
         ({ (⟨"r1", "p1", "u1", false, 5, "url1"⟩ : Alert) with
             notified := false } : Alert) ∈ S') ∧
       hLookup (get_alerts_to_fire
           ⟨[("g1", [⟨"r1", "p1", "u1", false, 5, "url1"⟩])], [], [], 0, [], [], []⟩
           [("g1", ⟨["p1"]⟩)]).1.handles ⟨"r1", "p1", "u1", false, 5, "url1"⟩ = none ∧
       ∀ id, hLookup ([] : Handles) ⟨"r1", "p1", "u1", false, 5, "url1"⟩ = some id →
         id ∈ (get_alerts_to_fire
           ⟨[("g1", [⟨"r1", "p1", "u1", false, 5, "url1"⟩])], [], [], 0, [], [], []⟩
           [("g1", ⟨["p1"]⟩)]).1.aborted) ∧
    (¬((⟨"r1", "p1", "u1", false, 5, "url1"⟩ : Alert).player_id ∈
        (⟨["p1"]⟩ : Game).waited_players ∧
      (⟨"r1", "p1", "u1", false, 5, "url1"⟩ : Alert).notified = false) →
     ¬((⟨"r1", "p1", "u1", false, 5, "url1"⟩ : Alert).player_id ∉
        (⟨["p1"]⟩ : Game).waited_players ∧
      (⟨"r1", "p1", "u1", false, 5, "url1"⟩ : Alert).notified = true) →
       ∃ S', regLookup (get_alerts_to_fire
           ⟨[("g1", [⟨"r1", "p1", "u1", false, 5, "url1"⟩])], [], [], 0, [], [], []⟩
           [("g1", ⟨["p1"]⟩)]).1.alerts_map "g1" = some S' ∧
         (⟨"r1", "p1", "u1", false, 5, "url1"⟩ : Alert) ∈ S') :=
  get_alerts_to_fire_reconcile [("g1", ⟨["p1"]⟩)]
    ⟨[("g1", [⟨"r1", "p1", "u1", false, 5, "url1"⟩])], [], [], 0, [], [], []⟩
    "g1" ⟨["p1"]⟩ [⟨"r1", "p1", "u1", false, 5, "url1"⟩]
    ⟨"r1", "p1", "u1", false, 5, "url1"⟩
    (by decide) (by decide) (by decide) (by decide) (by decide)

end Miou
